import Mathlib

/-!
Verification of the agent-orchestration engine and the text tools of the
ai-audio-transcriber repository, as a shallow embedding in Lean 4.

Conventions of the embedding:
* Python values that flow through the tools (the results of `json.loads`,
  the payload dictionaries, ...) are modelled by the inductive type `PyVal`.
  JSON numbers are carried as `Int` (Python `int`) or `Rat` (Python `float`;
  the rational stands for the decimal the parser read, so order comparisons
  are exact on the model).  Python's `bool` is a separate constructor and is
  deliberately accepted by the `isinstance(x, (int, float))` checks, as in
  Python, where `bool` is a subclass of `int`.
* Calls into the Python standard library or into external services
  (`json.loads`, `json.dumps`, the `re` module, the OpenAI client) are
  modelled as explicit function parameters, bundled in small `...IO`
  structures.  Every theorem quantifies over them or fixes a concrete,
  executable instance; counterexamples instantiate them on the few inputs
  they touch exactly as the Python library behaves there.
* Fallible operations return `Option`/`Except`; an uncaught Python exception
  inside the conversation loop is modelled by the `crashed` outcome.
-/

namespace ATrans

/-- The characters Python's `str.strip` removes by default (the ASCII
whitespace characters; exotic unicode whitespace is not modelled). -/
def isPyWS (c : Char) : Bool :=
  c == ' ' || c == '\t' || c == '\n' || c == '\r' || c == '\x0b' || c == '\x0c'

/-- Python `str.strip()`. -/
def pyStrip (s : String) : String :=
  String.mk (((s.toList.dropWhile isPyWS).reverse.dropWhile isPyWS).reverse)

/-- Python `str.rstrip()`. -/
def pyRStrip (s : String) : String :=
  String.mk ((s.toList.reverse.dropWhile isPyWS).reverse)

/-- Python `str.lower()` (ASCII). -/
def pyLower (s : String) : String :=
  String.mk (s.toList.map Char.toLower)

/-- Model of a Python value as produced by `json.loads` (plus `None`,
which `dict.get` returns for missing keys). -/
inductive PyVal where
  | null : PyVal
  | bool : Bool → PyVal
  | int : Int → PyVal
  | float : Rat → PyVal
  | str : String → PyVal
  | list : List PyVal → PyVal
  | obj : List (String × PyVal) → PyVal

/-- Python `d[k]` / `k in d` on a dictionary, modelled as first-match lookup
over the dictionary's items (keys of a Python dict are unique). -/
def pyGet? (m : List (String × PyVal)) (k : String) : Option PyVal :=
  match m with
  | [] => none
  | (k', v) :: rest => if k' = k then some v else pyGet? rest k

/-- Python `isinstance(v, str)`. -/
def isStrB : PyVal → Bool
  | .str _ => true
  | _ => false

/-- Python `isinstance(v, (int, float))` together with the numeric value used in
comparisons.  In Python `bool` is a subclass of `int`, so `True`/`False`
count as the numbers 1/0. -/
def pyNumQ : PyVal → Option Rat
  | .bool b => some (if b then 1 else 0)
  | .int n => some (n : Rat)
  | .float q => some q
  | _ => none

/-- Python truthiness `bool(v)`. -/
def pyBool : PyVal → Bool
  | .null => false
  | .bool b => b
  | .int n => n != 0
  | .float q => q != 0
  | .str s => !s.isEmpty
  | .list l => !l.isEmpty
  | .obj m => !m.isEmpty

/-- Python `str(v)`.  The claims checked below only ever apply it to `str`
values (and to `None` via `payload.get`); the formatting of containers and
floats, which Python renders as their `repr`, is approximated. -/
def pyStr : PyVal → String
  | .null => "None"
  | .bool b => if b then "True" else "False"
  | .int n => toString n
  | .float q => toString q
  | .str s => s
  | .list _ => "[...]"
  | .obj _ => "\x7b...\x7d"

/-! ## src/tools/quality_assurance_tools.py -/

/-- The per-element errors of `_validate_segments` for one dictionary
segment, in the order the source appends them (`index` is the enumeration
index). -/
def segErrs (index : Nat) (s : List (String × PyVal)) : List String :=
  (match pyGet? s "text" with
    | some v => if isStrB v then [] else [s!"segments[{index}].text must be a string"]
    | none => []) ++
  (match pyGet? s "speaker" with
    | some v => if isStrB v then [] else [s!"segments[{index}].speaker must be a string"]
    | none => []) ++
  (match pyGet? s "start" with
    | some v => if (pyNumQ v).isSome then [] else [s!"segments[{index}].start must be a number"]
    | none => []) ++
  (match pyGet? s "end" with
    | some v => if (pyNumQ v).isSome then [] else [s!"segments[{index}].end must be a number"]
    | none => []) ++
  (match pyGet? s "start", pyGet? s "end" with
    | some sv, some ev =>
      (match pyNumQ sv, pyNumQ ev with
        | some qs, some qe => if qe < qs then [s!"segments[{index}] has end before start"] else []
        | _, _ => [])
    | _, _ => [])

/-- The loop of `_validate_segments`: `for index, segment in enumerate(segments[:50])`,
with the `break` on a non-dictionary element. -/
def segLoop (index : Nat) : List PyVal → List String
  | [] => []
  | seg :: rest =>
    match seg with
    | .obj s => segErrs index s ++ segLoop (index + 1) rest
    | _ => [s!"segments[{index}] must be an object"]

/-- Source `_validate_segments`: validates only `segments[:50]` and collects
schema/ordering errors. -/
def _validate_segments (segments : List PyVal) : List String :=
  segLoop 0 (segments.take 50)

/-- The top-level error collection of `validate_json_structure`
(source lines 108-135), in the order the source appends the errors. -/
def topErrors (m : List (String × PyVal)) : List String :=
  (match pyGet? m "transcription" with
    | none => ["missing required field: transcription"]
    | some _ => []) ++
  (match pyGet? m "summary" with
    | none => ["missing required field: summary"]
    | some _ => []) ++
  (match pyGet? m "transcription" with
    | some v => if isStrB v then [] else ["transcription must be a string"]
    | none => []) ++
  (match pyGet? m "text" with
    | some v => if isStrB v then [] else ["text must be a string"]
    | none => []) ++
  (match pyGet? m "summary" with
    | some (.list items) => if items.all isStrB then [] else ["summary list must contain only strings"]
    | some (.str _) => []
    | some _ => ["summary must be a string or list of strings"]
    | none => []) ++
  (match pyGet? m "segments" with
    | some (.list segs) => _validate_segments segs
    | some _ => ["segments must be a list"]
    | none => [])

/-- The part of `validate_json_structure` that runs after `json.loads`
succeeded on the candidate (source lines 105-140). -/
def validatePayload (payload : PyVal) : String :=
  match payload with
  | .obj m =>
    let errors := topErrors m
    if errors = [] then "JSON structure is valid"
    else "Invalid JSON structure: " ++ String.intercalate "; " errors
  | _ => "Invalid JSON: top-level must be an object"

/-- First index of a character in a string: Python `str.find` (as an
`Option` instead of `-1`). -/
def pyFindAux (c : Char) : List Char → Nat → Option Nat
  | [], _ => none
  | x :: xs, i => if x = c then some i else pyFindAux c xs (i + 1)

def pyFind (s : String) (c : Char) : Option Nat :=
  pyFindAux c s.toList 0

/-- Last index of a character in a string: Python `str.rfind`. -/
def pyRFindAux (c : Char) : List Char → Nat → Option Nat → Option Nat
  | [], _, acc => acc
  | x :: xs, i, acc => pyRFindAux c xs (i + 1) (if x = c then some i else acc)

def pyRFind (s : String) (c : Char) : Option Nat :=
  pyRFindAux c s.toList 0 none

/-- The `min` over the present indices, mirroring
`[i for i in [a, b] if i != -1]` followed by `min`. -/
def minIdx : Option Nat → Option Nat → Option Nat
  | some a, some b => some (min a b)
  | some a, none => some a
  | none, some b => some b
  | none, none => none

/-- The `max` over the present indices. -/
def maxIdx : Option Nat → Option Nat → Option Nat
  | some a, some b => some (max a b)
  | some a, none => some a
  | none, some b => some b
  | none, none => none

/-- Python slice `s[a:]`. -/
def pySliceFrom (s : String) (a : Nat) : String :=
  String.mk (s.toList.drop a)

/-- Python slice `s[a:b]`. -/
def pySlice (s : String) (a b : Nat) : String :=
  String.mk ((s.toList.drop a).take (b - a))

/-- External collaborators of `validate_json_structure`: `fence_search`
models `re.search` of the code-fence pattern (returning capture group 1),
`loads` models `json.loads` (the error carries `exc.msg`, `exc.lineno`,
`exc.colno`). -/
structure QaIO where
  fence_search : String → Option String
  loads : String → Except (String × Nat × Nat) PyVal

/-- Source `_strip_code_fences`. -/
def _strip_code_fences (io : QaIO) (text : String) : String :=
  match io.fence_search text with
  | some g => pyStrip g
  | none => pyStrip text

/-- Source `_extract_json_candidate`. -/
def _extract_json_candidate (io : QaIO) (text : String) : String :=
  let cleaned := _strip_code_fences io text
  if cleaned = "" then ""
  else
    match minIdx (pyFind cleaned '{') (pyFind cleaned '[') with
    | none => cleaned
    | some first =>
      match maxIdx (pyRFind cleaned '}') (pyRFind cleaned ']') with
      | none => pySliceFrom cleaned first
      | some last =>
        if last ≤ first then cleaned
        else pySlice cleaned first (last + 1)

/-- Source `validate_json_structure`. -/
def validate_json_structure (io : QaIO) (transcription : String) : String :=
  if pyStrip transcription = "" then "Invalid JSON: empty input"
  else
    let candidate := _extract_json_candidate io transcription
    if candidate = "" then "Invalid JSON: empty input"
    else
      match io.loads candidate with
      | .error (m, lineno, colno) =>
        "Invalid JSON: " ++ m ++ " (line " ++ toString lineno ++ ", col " ++ toString colno ++ ")"
      | .ok payload => validatePayload payload

/-! Claim-side re-statement of the validity condition of C9, written from
the claim's words, independently of the error-list plumbing above. -/

/-- One segment passes the per-segment type and end-not-before-start
checks (claim C9's wording). -/
def segOk (seg : PyVal) : Bool :=
  match seg with
  | .obj s =>
    (match pyGet? s "text" with | some v => isStrB v | none => true) &&
    (match pyGet? s "speaker" with | some v => isStrB v | none => true) &&
    (match pyGet? s "start" with | some v => (pyNumQ v).isSome | none => true) &&
    (match pyGet? s "end" with | some v => (pyNumQ v).isSome | none => true) &&
    (match pyGet? s "start", pyGet? s "end" with
      | some sv, some ev =>
        (match pyNumQ sv, pyNumQ ev with
          | some qs, some qe => !decide (qe < qs)
          | _, _ => true)
      | _, _ => true)
  | _ => false

/-- The payload condition of claim C9: a JSON object with both required
keys, correctly typed `transcription`/`text`/`summary`, and, when
`segments` is present, a list whose first 50 elements pass `segOk`. -/
def specValidPayload (v : PyVal) : Bool :=
  match v with
  | .obj m =>
    (pyGet? m "transcription").isSome &&
    (pyGet? m "summary").isSome &&
    (match pyGet? m "transcription" with | some w => isStrB w | none => true) &&
    (match pyGet? m "text" with | some w => isStrB w | none => true) &&
    (match pyGet? m "summary" with
      | some (.list items) => items.all isStrB
      | some (.str _) => true
      | some _ => false
      | none => true) &&
    (match pyGet? m "segments" with
      | some (.list segs) => (segs.take 50).all segOk
      | some _ => false
      | none => true)
  | _ => false

/-! ## src/tools/cleaner_tools.py -/

/-- The four counters the cleaner reports under `"stats"`. -/
structure CleanStats where
  strict_fillers_removed : Nat
  soft_fillers_removed : Nat
  stutters_collapsed : Nat
  empty_speaker_lines_dropped : Nat
deriving DecidableEq

def zeroStats : CleanStats := ⟨0, 0, 0, 0⟩

def CleanStats.toPy (s : CleanStats) : PyVal :=
  .obj [("strict_fillers_removed", .int s.strict_fillers_removed),
        ("soft_fillers_removed", .int s.soft_fillers_removed),
        ("stutters_collapsed", .int s.stutters_collapsed),
        ("empty_speaker_lines_dropped", .int s.empty_speaker_lines_dropped)]

def CleanStats.add (a b : CleanStats) : CleanStats :=
  ⟨a.strict_fillers_removed + b.strict_fillers_removed,
   a.soft_fillers_removed + b.soft_fillers_removed,
   a.stutters_collapsed + b.stutters_collapsed,
   a.empty_speaker_lines_dropped + b.empty_speaker_lines_dropped⟩

/-- External collaborators of the cleaner.  `loads`/`dumps` model the
`json` module; `clean_content_line` models `_clean_content_line`, the
purely `re`-based cleaning of one content line, as
`(line, aggressiveness) -> (cleaned line, strict, soft, stutters)`;
`speaker_split` models `re.match` of the speaker-label pattern
(returning the prefix and content groups); `api_key` models
`os.getenv("OPENAI_API_KEY")`; `openai_call` models the network call of
`_clean_with_openai` as `(cleanup_style, text) -> output_text`, with
`Except` carrying a raised exception's text. -/
structure CleanerIO where
  loads : String → Option PyVal
  dumps : PyVal → String
  clean_content_line : String → String → String × Nat × Nat × Nat
  speaker_split : String → Option (String × String)
  api_key : Option String
  openai_call : String → String → Except String String

/-- Source `_clean_with_openai`. -/
def _clean_with_openai (io : CleanerIO) (transcript_text mode aggressiveness : String) :
    String × Option String :=
  match io.api_key with
  | none => (transcript_text, some "OPENAI_API_KEY is missing; used local cleaner fallback.")
  | some _ =>
    if mode = "verbatim" then (transcript_text, none)
    else
      let cleanup_style := if aggressiveness = "aggressive" then "strong" else "light"
      match io.openai_call cleanup_style transcript_text with
      | .error exc =>
        (transcript_text, some ("OpenAI cleaner failed (" ++ exc ++ "); used local cleaner fallback."))
      | .ok out =>
        let cleaned := pyStrip out
        if cleaned = "" then
          (transcript_text, some "OpenAI returned empty output; used local cleaner fallback.")
        else (cleaned, none)

/-- Python `str.splitlines` restricted to the `\n`, `\r\n` and `\r`
line terminators. -/
def splitlinesAux : List Char → List Char → List String
  | [], acc => if acc.isEmpty then [] else [String.mk acc.reverse]
  | '\r' :: '\n' :: rest, acc => String.mk acc.reverse :: splitlinesAux rest []
  | '\n' :: rest, acc => String.mk acc.reverse :: splitlinesAux rest []
  | '\r' :: rest, acc => String.mk acc.reverse :: splitlinesAux rest []
  | c :: rest, acc => splitlinesAux rest (c :: acc)

def pySplitlines (s : String) : List String :=
  splitlinesAux s.toList []

/-- One iteration of the line loop of `_clean_plain_transcript`; the
accumulator carries the cleaned lines and the running totals. -/
def cleanLineStep (io : CleanerIO) (aggressiveness : String)
    (acc : List String × CleanStats) (raw_line : String) : List String × CleanStats :=
  let (cleaned_lines, totals) := acc
  if pyStrip raw_line = "" then (cleaned_lines ++ [""], totals)
  else
    match io.speaker_split raw_line with
    | some (pre, content) =>
      let (cleaned_content, st, so, stu) := io.clean_content_line content aggressiveness
      let totals := totals.add ⟨st, so, stu, 0⟩
      if cleaned_content ≠ "" then
        (cleaned_lines ++ [pyRStrip (pre ++ cleaned_content)], totals)
      else
        (cleaned_lines, totals.add ⟨0, 0, 0, 1⟩)
    | none =>
      let (cleaned, st, so, stu) := io.clean_content_line raw_line aggressiveness
      let totals := totals.add ⟨st, so, stu, 0⟩
      if cleaned ≠ "" then (cleaned_lines ++ [cleaned], totals)
      else (cleaned_lines, totals)

/-- Source `_clean_plain_transcript`: verbatim mode returns the stripped text
unchanged with zero counters; otherwise the text is cleaned line by line. -/
def _clean_plain_transcript (io : CleanerIO) (text mode aggressiveness : String) :
    String × CleanStats × List String :=
  if mode = "verbatim" then (pyStrip text, zeroStats, [])
  else
    let (cleaned_lines, totals) :=
      (pySplitlines text).foldl (cleanLineStep io aggressiveness) ([], zeroStats)
    let result := pyRStrip (String.intercalate "\n" cleaned_lines)
    let warnings := if result = "" then ["All transcript content was removed by cleaning rules."] else []
    (result, totals, warnings)

/-- Source `_parse_input_payload`: JSON input yields the payload dictionary,
anything else (including a JSON non-object) yields `none`. -/
def _parse_input_payload (io : CleanerIO) (text : String) :
    Option (List (String × PyVal)) × String :=
  let raw := pyStrip text
  if raw = "" then (none, "")
  else
    match io.loads raw with
    | none => (none, raw)
    | some parsed =>
      match parsed with
      | .obj m => (some m, raw)
      | _ => (none, raw)

/-- One iteration of the segment loop of `_clean_segments`; the
accumulator carries cleaned segments, totals and warnings. -/
def cleanSegStep (io : CleanerIO) (mode aggressiveness : String)
    (acc : List PyVal × CleanStats × List String) (seg : PyVal) :
    List PyVal × CleanStats × List String :=
  let (cleaned_segments, totals, warnings) := acc
  match seg with
  | .obj s =>
    let text_value := match pyGet? s "text" with
      | some v => pyStr v
      | none => ""
    let (cleaned_text, stats, seg_warnings) := _clean_plain_transcript io text_value mode aggressiveness
    let totals := totals.add stats
    let warnings := warnings ++ seg_warnings
    if cleaned_text ≠ "" then
      let copied := if (pyGet? s "text").isSome
        then s.map (fun p => if p.1 = "text" then (p.1, PyVal.str cleaned_text) else p)
        else s ++ [("text", PyVal.str cleaned_text)]
      (cleaned_segments ++ [.obj copied], totals, warnings)
    else (cleaned_segments, totals, warnings)
  | _ => (cleaned_segments, totals, warnings ++ ["Encountered non-object segment; skipped."])

/-- Source `_clean_segments`. -/
def _clean_segments (io : CleanerIO) (segments : List PyVal) (mode aggressiveness : String) :
    List PyVal × CleanStats × List String :=
  segments.foldl (cleanSegStep io mode aggressiveness) ([], zeroStats, [])

/-- Source `"\n".join(seg.get("text", "") for seg in cleaned_segments if seg.get("text")).strip()`.
`_clean_segments` only ever stores strings under `"text"`, so the non-string
arm (where Python's `join` would raise) is unreachable. -/
def joinSegTexts (cleaned_segments : List PyVal) : String :=
  (String.intercalate "\n" (cleaned_segments.filterMap fun seg =>
    match seg with
    | .obj s =>
      (match pyGet? s "text" with
        | some v => if pyBool v then some (match v with | .str t => t | _ => "") else none
        | none => none)
    | _ => none))

/-- The result of `remove_filler_words` before `json.dumps`: the
backward-compatible plain-text path returns a bare string, the JSON path
returns the output dictionary. -/
inductive RfwOut where
  | plainOut : String → RfwOut
  | jsonOut : PyVal → RfwOut

/-- The output dictionary of the JSON path, in the order the source
builds it (the `segments` key is appended afterwards when present). -/
def rfwOutputBase (mode aggressiveness : String) (use_openai : Bool) (cleaned_text : String)
    (metadata : PyVal) (stats : CleanStats) (warnings : List String) :
    List (String × PyVal) :=
  [("mode", .str mode),
   ("aggressiveness", .str aggressiveness),
   ("use_openai", .bool use_openai),
   ("cleaned_text", .str cleaned_text),
   ("metadata", match metadata with | .obj m => .obj m | _ => .obj []),
   ("stats", stats.toPy),
   ("warnings", .list (warnings.map .str))]

/-- The JSON-payload branch of `remove_filler_words` (the body from the
`mode = str(payload.get(...))` line to the final `output` dictionary). -/
def remove_filler_words_payload (io : CleanerIO) (pm : List (String × PyVal)) : RfwOut :=
  let mode0 := pyLower (pyStr ((pyGet? pm "mode").getD (.str "cleaned")))
  let mode := if mode0 = "cleaned" ∨ mode0 = "verbatim" then mode0 else "cleaned"
  let agg0 := pyLower (pyStr ((pyGet? pm "aggressiveness").getD (.str "balanced")))
  let aggressiveness := if agg0 = "balanced" ∨ agg0 = "aggressive" then agg0 else "balanced"
  let use_openai := pyBool ((pyGet? pm "use_openai").getD (.bool false))
  let metadata := (pyGet? pm "metadata").getD (.obj [])
  let transcriptV := (pyGet? pm "transcript").getD .null
  let segmentsV := (pyGet? pm "segments").getD .null
  match segmentsV with
  | .list segs =>
    let (cleaned_segments, seg_stats, seg_warnings) := _clean_segments io segs mode aggressiveness
    let totals := zeroStats.add seg_stats
    let cleaned_text := joinSegTexts cleaned_segments
    .jsonOut (.obj (rfwOutputBase mode aggressiveness use_openai cleaned_text metadata totals seg_warnings
      ++ [("segments", .list cleaned_segments)]))
  | _ =>
    let base_text := match transcriptV with
      | .null => ""
      | v => pyStr v
    let (cleaned_text, text_stats, text_warnings) :=
      if use_openai then
        match _clean_with_openai io base_text mode aggressiveness with
        | (_, some llm_error) =>
          let (ct, st, ws) := _clean_plain_transcript io base_text mode aggressiveness
          (ct, st, [llm_error] ++ ws)
        | (llm_cleaned, none) => (llm_cleaned, zeroStats, [])
      else _clean_plain_transcript io base_text mode aggressiveness
    let totals := zeroStats.add text_stats
    .jsonOut (.obj (rfwOutputBase mode aggressiveness use_openai cleaned_text metadata totals text_warnings))

/-- Source `remove_filler_words`, up to the final `json.dumps`. -/
def remove_filler_words_result (io : CleanerIO) (text : String) : RfwOut :=
  if text = "" ∨ pyStrip text = "" then .plainOut ""
  else
    match (_parse_input_payload io text).1 with
    | none => .plainOut (_clean_plain_transcript io text "cleaned" "balanced").1
    | some pm => remove_filler_words_payload io pm

/-- Source `remove_filler_words`. -/
def remove_filler_words (io : CleanerIO) (text : String) : String :=
  match remove_filler_words_result io text with
  | .plainOut s => s
  | .jsonOut v => io.dumps v

/-- Projection used to state claims about the JSON path: the
`cleaned_text` field of the output dictionary. -/
def rfwCleanedText (r : RfwOut) : Option String :=
  match r with
  | .jsonOut (.obj m) =>
    (match pyGet? m "cleaned_text" with
      | some (.str t) => some t
      | _ => none)
  | _ => none

/-- Projection: the `stats` field of the output dictionary. -/
def rfwStats (r : RfwOut) : Option PyVal :=
  match r with
  | .jsonOut (.obj m) => pyGet? m "stats"
  | _ => none

/-! ## src/agent.py — the conversation engine `run_agent` -/

/-- An agent definition as loaded from `agents.yaml` (the `Agent` TypedDict
comes from `config.py`, which is not under src/; only the fields `run_agent`
reads are modelled). -/
structure Agent where
  name : String
  prompt : String
  tools : List String
deriving DecidableEq

/-- One `function_call` output item of a backend response. -/
structure FunctionCall where
  name : String
  arguments : String
  call_id : String
deriving DecidableEq

/-- One output item of a backend response.  A `message` item carries the
concatenation of its `output_text` content parts; `other` stands for any
unrecognized item kind. -/
inductive OutputItem where
  | function_call : FunctionCall → OutputItem
  | message : String → OutputItem
  | reasoning : String → OutputItem
  | other : String → OutputItem
deriving DecidableEq

/-- One entry of the conversation history list built by `run_agent`. -/
inductive HistoryEntry where
  | system : String → HistoryEntry
  | user : String → HistoryEntry
  | output : OutputItem → HistoryEntry
  | function_call_output : (call_id : String) → (output : String) → HistoryEntry
deriving DecidableEq

def isFCO : HistoryEntry → Bool
  | .function_call_output _ _ => true
  | _ => false

def isMsg : OutputItem → Bool
  | .message _ => true
  | _ => false

/-- The OpenAI SDK's `response.output_text`: the concatenation of the text
of every `message` item of the response, in order. -/
def output_text (items : List OutputItem) : String :=
  String.join (items.filterMap fun it =>
    match it with
    | .message t => some t
    | _ => none)

/-- The `json` module as used by the engine: `loads` for
`json.loads(item.arguments)` (`none` models a raised `JSONDecodeError`)
and `dumps` for `json.dumps(result)`. -/
structure EngineIO where
  loads : String → Option PyVal
  dumps : PyVal → String

/-- Classification of what one pass over a response's output items did. -/
inductive StepClass where
  | clsDone : String → StepClass
  | clsNext : StepClass
  | clsCrash : StepClass
deriving DecidableEq

/-- Result of the `for item in response.output` loop: the final text on a
`message` item, continuation otherwise, or a crash when
`json.loads(item.arguments)` raises (or the parsed arguments are not a
dictionary, so that `**` unpacking raises). -/
structure StepResult where
  cls : StepClass
  hist : List HistoryEntry
  errLog : List OutputItem
deriving DecidableEq

/-- The body of `for item in response.output` in `run_agent`:
function calls are dispatched through `runTool` (the total
`ToolBox.run_tool`) and their results appended to the history; the first
`message` item ends the turn loop returning `response.output_text`;
`reasoning` items only print; anything else goes to stderr (`errLog`). -/
def processItems (io : EngineIO) (runTool : String → List (String × PyVal) → PyVal)
    (outText : String) (hist : List HistoryEntry) (log : List OutputItem) :
    List OutputItem → StepResult
  | [] => ⟨.clsNext, hist, log⟩
  | .function_call fc :: rest =>
    (match io.loads fc.arguments with
      | some (.obj kwargs) =>
        let result := runTool fc.name kwargs
        processItems io runTool outText
          (hist ++ [.function_call_output fc.call_id (io.dumps result)]) log rest
      | _ => ⟨.clsCrash, hist, log⟩)
  | .message _ :: _ => ⟨.clsDone outText, hist, log⟩
  | .reasoning _ :: rest => processItems io runTool outText hist log rest
  | .other k :: rest => processItems io runTool outText hist (log ++ [.other k]) rest

/-- How a run of the engine ended.  `scriptEnded` is an artifact of the
scripted backend: the real `while True` loop would issue one more backend
request at that point. -/
inductive Outcome where
  | finished : String → Outcome
  | scriptEnded : Outcome
  | crashed : Outcome
deriving DecidableEq

/-- Observable trace of one engine run: how it ended, the history sent on
each backend request (in order), the final history, and the items printed
to stderr. -/
structure RunTrace where
  outcome : Outcome
  requests : List (List HistoryEntry)
  history : List HistoryEntry
  errLog : List OutputItem
deriving DecidableEq

/-- The `while True` loop of `run_agent`, driven by a scripted backend
(`script` lists the successive responses' output-item lists).  Each
iteration records the full current history as the request sent, appends
`response.output` to the history, and runs the item loop. -/
def runLoop (io : EngineIO) (runTool : String → List (String × PyVal) → PyVal)
    (reqs : List (List HistoryEntry)) (log : List OutputItem)
    (hist : List HistoryEntry) : List (List OutputItem) → RunTrace
  | [] => ⟨.scriptEnded, reqs, hist, log⟩
  | out :: rest =>
    let reqs' := reqs ++ [hist]
    let hist' := hist ++ out.map HistoryEntry.output
    match processItems io runTool (output_text out) hist' log out with
    | ⟨.clsDone t, h, l⟩ => ⟨.finished t, reqs', h, l⟩
    | ⟨.clsNext, h, l⟩ => runLoop io runTool reqs' l h rest
    | ⟨.clsCrash, h, l⟩ => ⟨.crashed, reqs', h, l⟩

/-- The history `run_agent` starts from: the system prompt and, when a
message was passed, one user entry. -/
def seed_history (agent : Agent) (message : Option String) : List HistoryEntry :=
  [.system agent.prompt] ++ (match message with | some m => [.user m] | none => [])

/-- Source `run_agent`. -/
def run_agent (io : EngineIO) (runTool : String → List (String × PyVal) → PyVal)
    (agent : Agent) (message : Option String) (script : List (List OutputItem)) : RunTrace :=
  runLoop io runTool [] [] (seed_history agent message) script

/-- Modelled from the spec: `ToolBox.run_tool` (the `ToolBox` class is not
under src/).  Per §4.1/§7 of the spec, the registry "catches any failure
raised by the tool body and converts it into a structured error result";
`body` is the raw tool body, which may fail, and the wrapper is total. -/
def run_tool (body : String → List (String × PyVal) → Except String PyVal)
    (name : String) (kwargs : List (String × PyVal)) : PyVal :=
  match body name kwargs with
  | .ok v => v
  | .error e => .obj [("error", .str e)]

/-- Modelled from the spec: `ToolBox.add_agent_tool` (not under src/).
Per §4.1/§4.4, an agent-as-tool takes one optional free-text `message`
argument, runs the nested agent's full turn loop via `run_agent`, and
returns the nested agent's final text.  `agents` maps a tool name to the
nested agent together with the scripted backend responses of its nested
run; other names fall through to the plain dispatch `base`. -/
def agent_tool_dispatch (io : EngineIO)
    (base : String → List (String × PyVal) → PyVal)
    (agents : String → Option (Agent × List (List OutputItem)))
    (name : String) (kwargs : List (String × PyVal)) : PyVal :=
  match agents name with
  | some (a, nestedScript) =>
    let msg := match pyGet? kwargs "message" with
      | some (.str s) => some s
      | _ => none
    (match (run_agent io base a msg nestedScript).outcome with
      | .finished t => .str t
      | _ => .null)
  | none => base name kwargs

/-- The filterMap extracting the function-call items of a response. -/
def fcList (items : List OutputItem) : List FunctionCall :=
  items.filterMap fun it =>
    match it with
    | .function_call fc => some fc
    | _ => none

/-- No `message` item precedes any `function_call` item. -/
def no_msg_before_fc : List OutputItem → Bool
  | [] => true
  | .message _ :: rest => (fcList rest).isEmpty
  | _ :: rest => no_msg_before_fc rest

/-- Every `function_call` item's arguments string parses (under `io.loads`,
i.e. `json.loads`) as a JSON object, so `**json.loads(...)` does not raise. -/
def args_ok (io : EngineIO) (items : List OutputItem) : Bool :=
  items.all fun it =>
    match it with
    | .function_call fc =>
      (match io.loads fc.arguments with
        | some (.obj _) => true
        | _ => false)
    | _ => true

/-- The kwargs dictionary `json.loads(item.arguments)` produced (meaningful
under `args_ok`). -/
def argObj (io : EngineIO) (fc : FunctionCall) : List (String × PyVal) :=
  match io.loads fc.arguments with
  | some (.obj kwargs) => kwargs
  | _ => []

/-- The history entry the engine appends for one executed function call. -/
def fcoOf (io : EngineIO) (runTool : String → List (String × PyVal) → PyVal)
    (fc : FunctionCall) : HistoryEntry :=
  .function_call_output fc.call_id (io.dumps (runTool fc.name (argObj io fc)))

/-- One backend request extends the previous one by exactly that
response's output items followed by tool-result entries (the shape of the
delta between consecutive requests). -/
def HistExtend (a b : List HistoryEntry) : Prop :=
  ∃ (out : List OutputItem) (res : List HistoryEntry),
    b = a ++ out.map HistoryEntry.output ++ res ∧ ∀ e ∈ res, isFCO e = true

/-! ## The background transcription job (claim C4)

Modelled from the spec: `ToolBox.set_transcription_task` and
`ToolBox.get_transcript` are not under src/ (`src/agent.py` only creates
the `asyncio` task and hands it to the tool box).  §4.2 of the spec fixes
the contract: states `Pending → Running → (Done | Failed)` transition
monotonically, the result is memoized, and every waiter receives the same
value.  Traces of the shared handle are modelled as event lists. -/

inductive JobState where
  | pending : JobState
  | running : JobState
  | done : String → JobState
  | failed : String → JobState
deriving DecidableEq

/-- Events on the shared job handle: the single `start`, the body
finishing (`bodyDone`/`bodyFailed`), and a waiter being handed the
memoized result (`deliver caller value`). -/
inductive JobEvent where
  | start : JobEvent
  | bodyDone : String → JobEvent
  | bodyFailed : String → JobEvent
  | deliver : Nat → String → JobEvent
deriving DecidableEq

/-- The transition relation of the handle: a waiter can only be handed the
memoized value of a `done` state, the body can only finish from `running`,
and nothing moves out of `done`/`failed`. -/
def jobStep : JobState → JobEvent → Option JobState
  | .pending, .start => some .running
  | .running, .bodyDone r => some (.done r)
  | .running, .bodyFailed e => some (.failed e)
  | .done r, .deliver _ v => if v = r then some (.done r) else none
  | _, _ => none

/-- Run a list of events from a state; `none` when some event was not a
legal transition. -/
def runJob : JobState → List JobEvent → Option JobState
  | s, [] => some s
  | s, e :: evs =>
    match jobStep s e with
    | some s' => runJob s' evs
    | none => none

def bodyDoneCount (evs : List JobEvent) : Nat :=
  (evs.filter fun e =>
    match e with
    | .bodyDone _ => true
    | _ => false).length

/-- The statement sequence of `async_main` (src/agent.py lines 97-110),
one constructor per statement that touches the shared state or starts an
execution context. -/
inductive SetupStep where
  | set_audio_path : SetupStep
  | create_transcription_task : SetupStep
  | set_transcription_task : SetupStep
  | load_config : SetupStep
  | add_agent_tools_step : SetupStep
  | run_root_agent : SetupStep
deriving DecidableEq

/-- Source `async_main`, in statement order: set the audio path, create the
background transcription task (`asyncio.create_task(asyncio.to_thread(...))`),
hand it to the tool box, load the configuration, register the agent tools,
and only then run the root agent. -/
def async_main_steps : List SetupStep :=
  [.set_audio_path, .create_transcription_task, .set_transcription_task,
   .load_config, .add_agent_tools_step, .run_root_agent]

/-! ## Concrete instances of the external collaborators

Used by witnesses and counterexamples.  Each `loads` instance is defined
on exactly the inputs the corresponding run feeds it, and agrees with
Python's `json.loads` there; every other collaborator is instantiated on
inputs the exercised paths never touch. -/

/-- A transcript payload accepted by the validator. -/
def qaPayload₁ : PyVal :=
  .obj [("transcription", .str "x"), ("summary", .str "y")]

def qaText₁ : String := "\x7b\"transcription\": \"x\", \"summary\": \"y\"\x7d"

def qio₁ : QaIO :=
  { fence_search := fun _ => none
    loads := fun s => if s = qaText₁ then .ok qaPayload₁ else .error ("Expecting value", 1, 1) }

/-- A cleaner environment whose regex collaborators are never reached by
the verbatim paths exercised below. -/
def cioInert (loads : String → Option PyVal) : CleanerIO :=
  { loads := loads
    dumps := fun _ => ""
    clean_content_line := fun l _ => (l, 0, 0, 0)
    speaker_split := fun _ => none
    api_key := none
    openai_call := fun _ _ => .error "network unavailable" }

/-- The C10 counterexample payload: verbatim mode, `use_openai` false, a
string transcript — and additionally a `segments` list.  Its JSON text and
its parse, exactly as Python's `json.loads` produces it. -/
def cPayloadC10 : List (String × PyVal) :=
  [("mode", .str "verbatim"), ("use_openai", .bool false), ("transcript", .str "a"),
   ("segments", .list [.obj [("text", .str "b")]])]

def cTextC10 : String :=
  "\x7b\"mode\": \"verbatim\", \"use_openai\": false, \"transcript\": \"a\", \"segments\": [\x7b\"text\": \"b\"\x7d]\x7d"

def cioC10 : CleanerIO :=
  cioInert (fun r => if r = cTextC10 then some (.obj cPayloadC10) else none)

/-- The C10 witness payload: verbatim mode, `use_openai` false, a string
transcript, no segments. -/
def wPayloadC10 : List (String × PyVal) :=
  [("mode", .str "verbatim"), ("use_openai", .bool false), ("transcript", .str " hi ")]

def wTextC10 : String :=
  "\x7b\"mode\": \"verbatim\", \"use_openai\": false, \"transcript\": \" hi \"\x7d"

def cioW10 : CleanerIO :=
  cioInert (fun r => if r = wTextC10 then some (.obj wPayloadC10) else none)

/-- Engine collaborators parsing only the empty-object arguments string,
as Python's `json.loads` does. -/
def io₀e : EngineIO :=
  ⟨fun s => if s = "\x7b\x7d" then some (.obj []) else none, fun _ => "null"⟩

/-- Engine collaborators for inputs that are never valid JSON
(`json.loads` raises on every argument string the runs below feed it). -/
def io₀bad : EngineIO := ⟨fun _ => none, fun _ => "null"⟩

/-- A plain tool dispatch that always succeeds. -/
def rt₀ : String → List (String × PyVal) → PyVal := fun _ _ => .str "ok"

def a₀ : Agent := ⟨"root", "You are root.", []⟩

def fcGood : FunctionCall := ⟨"tool", "\x7b\x7d", "c1"⟩

/-- A function call whose arguments string is not JSON. -/
def fcBad : FunctionCall := ⟨"tool", "not json", "c1"⟩

/-- A second malformed call, used by the C3 counterexample. -/
def fcBad2 : FunctionCall := ⟨"tool", "oops", "c9"⟩

/-- A tool body that succeeds. -/
def body₀ : String → List (String × PyVal) → Except String PyVal :=
  fun _ _ => .ok (.str "fine")

/-- A tool body that raises. -/
def body₁ : String → List (String × PyVal) → Except String PyVal :=
  fun _ _ => .error "boom"

/-- The nested agent of the delegation witness. -/
def aNest : Agent := ⟨"helper", "You are helper.", []⟩

def agents₀ : String → Option (Agent × List (List OutputItem)) :=
  fun n => if n = "helper_tool" then some (aNest, [[.message "pong"]]) else none

def delArgs : String := "\x7b\"message\": \"ping\"\x7d"

def ioDel : EngineIO :=
  ⟨fun s => if s = delArgs then some (.obj [("message", .str "ping")]) else none,
   fun _ => "\"pong\""⟩

/-- A legal trace of the job handle: start, the body finishing once, and
two waiters delivered the memoized value. -/
def evs₀c : List JobEvent := [.start, .bodyDone "t", .deliver 0 "t", .deliver 1 "t"]

end ATrans

namespace ATrans

/-! # Theorems -/

/-- An `if` over a boolean check producing an error message is empty iff
the check passed. -/
theorem ite_list_nil_iff (b : Bool) (msg : String) :
    (if b = true then ([] : List String) else [msg]) = [] ↔ b = true := by
  cases b <;> simp

/-- An `if` raising an error message on a failing comparison is empty iff
the comparison holds. -/
theorem ite_list_nil_iff' (p : Prop) [Decidable p] (msg : String) :
    (if p then [msg] else ([] : List String)) = [] ↔ ¬p := by
  by_cases h : p <;> simp [h]

/-- The per-segment error list is empty exactly when the segment passes
the claim-side per-segment checks. -/
theorem segErrs_nil_iff (i : Nat) (s : List (String × PyVal)) :
    segErrs i s = [] ↔ segOk (PyVal.obj s) = true := by
  simp only [segErrs, segOk]
  rcases h1 : pyGet? s "text" with _ | v1 <;>
  rcases h2 : pyGet? s "speaker" with _ | v2 <;>
  rcases h3 : pyGet? s "start" with _ | v3 <;>
  rcases h4 : pyGet? s "end" with _ | v4 <;>
  (try cases hb1 : isStrB v1) <;>
  (try cases hb2 : isStrB v2) <;>
  (try cases hq3 : pyNumQ v3) <;>
  (try cases hq4 : pyNumQ v4) <;>
  simp_all

/-- The segment loop reports no error exactly when every element passes
the per-segment checks (at any enumeration offset). -/
theorem segLoop_nil_iff (l : List PyVal) : ∀ i : Nat,
    segLoop i l = [] ↔ l.all segOk = true := by
  induction l with
  | nil => intro i; simp [segLoop]
  | cons seg rest ih =>
    intro i
    rcases seg with _ | b | n | q | s | l' | m <;>
      simp [segLoop, segOk, segErrs_nil_iff, ih (i + 1), Bool.and_eq_true, and_comm]

/-- Source `_validate_segments` reports no error exactly when the first 50
elements pass the per-segment checks. -/
theorem validate_segments_nil_iff (segs : List PyVal) :
    _validate_segments segs = [] ↔ (segs.take 50).all segOk = true := by
  simpa [_validate_segments] using segLoop_nil_iff (segs.take 50) 0

/-- The top-level error list is empty exactly when the payload satisfies
the claim-side validity condition. -/
theorem topErrors_nil_iff (m : List (String × PyVal)) :
    topErrors m = [] ↔ specValidPayload (PyVal.obj m) = true := by
  simp only [topErrors, specValidPayload]
  rcases h1 : pyGet? m "transcription" with _ | v1 <;>
  rcases h2 : pyGet? m "summary" with _ | v2 <;>
  rcases h3 : pyGet? m "text" with _ | v3 <;>
  rcases h4 : pyGet? m "segments" with _ | v4 <;>
  (try cases hb1 : isStrB v1) <;>
  (try cases hb3 : isStrB v3) <;>
  (try rcases v2 with _ | b2 | n2 | q2 | s2 | items2 | m2) <;>
  (try rcases v4 with _ | b4 | n4 | q4 | s4 | segs4 | m4) <;>
  simp_all [validate_segments_nil_iff, Bool.and_eq_true, and_assoc]

/-- A failure report of the structural checks is never the success
sentinel. -/
theorem invalid_structure_ne_valid (x : String) :
    "Invalid JSON structure: " ++ x ≠ "JSON structure is valid" := by
  intro hEq
  have hl := congrArg String.length hEq
  rw [String.length_append] at hl
  have h24 : ("Invalid JSON structure: " : String).length = 24 := rfl
  have h23 : ("JSON structure is valid" : String).length = 23 := rfl
  omega

/-- A parse-failure report is never the success sentinel. -/
theorem parse_error_ne_valid (m : String) (l c : Nat) :
    "Invalid JSON: " ++ m ++ " (line " ++ toString l ++ ", col " ++ toString c ++ ")" ≠
      "JSON structure is valid" := by
  intro hEq
  have hl := congrArg String.length hEq
  simp only [String.length_append] at hl
  have h14 : ("Invalid JSON: " : String).length = 14 := rfl
  have h7 : (" (line " : String).length = 7 := rfl
  have h6 : (", col " : String).length = 6 := rfl
  have h1 : (")" : String).length = 1 := rfl
  have h23 : ("JSON structure is valid" : String).length = 23 := rfl
  omega

/-- The post-parse validator returns the success sentinel exactly on
claim-valid payloads. -/
theorem validatePayload_valid_iff (v : PyVal) :
    validatePayload v = "JSON structure is valid" ↔ specValidPayload v = true := by
  rcases v with _ | b | n | q | s | l | m
  case obj =>
    simp only [validatePayload]
    by_cases h : topErrors m = []
    · simp [h, (topErrors_nil_iff m).mp h]
    · have : ¬ specValidPayload (PyVal.obj m) = true := fun hv => h ((topErrors_nil_iff m).mpr hv)
      simp [h, this, invalid_structure_ne_valid]
  all_goals simp [validatePayload, specValidPayload]

/-- C7: empty or all-whitespace input makes `remove_filler_words` return
the empty string and `validate_json_structure` return the sentinel
`"Invalid JSON: empty input"`; both paths return normally (no exception
is modelled or raised on them). -/
theorem C7_empty_inputs (cio : CleanerIO) (qio : QaIO) (t : String) (h : pyStrip t = "") :
    remove_filler_words cio t = "" ∧
      validate_json_structure qio t = "Invalid JSON: empty input" := by
  constructor
  · simp [remove_filler_words, remove_filler_words_result, h]
  · simp [validate_json_structure, h]

/-- C9: the validator returns exactly `"JSON structure is valid"` iff the
parsed candidate is an object containing `transcription` and `summary`,
with `transcription`/`text` strings, `summary` a string or list of
strings, and the first 50 `segments` entries passing the per-segment
checks; `_validate_segments` never looks past index 49; parse failures
and empty inputs never yield the sentinel. -/
theorem C9_validator_characterization :
    (∀ (io : QaIO) (t : String) (v : PyVal),
        pyStrip t ≠ "" →
        _extract_json_candidate io t ≠ "" →
        io.loads (_extract_json_candidate io t) = .ok v →
        (validate_json_structure io t = "JSON structure is valid" ↔
          specValidPayload v = true))
    ∧ (∀ segs : List PyVal, _validate_segments segs = _validate_segments (segs.take 50))
    ∧ (∀ (io : QaIO) (t msg : String) (l c : Nat),
        io.loads (_extract_json_candidate io t) = .error (msg, l, c) →
        validate_json_structure io t ≠ "JSON structure is valid")
    ∧ (∀ (io : QaIO) (t : String), _extract_json_candidate io t = "" →
        validate_json_structure io t ≠ "JSON structure is valid") := by
  refine ⟨?_, ?_, ?_, ?_⟩
  · intro io t v ht hc hl
    rw [validate_json_structure, if_neg ht]
    simp only [hc, if_neg hc, hl]
    exact validatePayload_valid_iff v
  · intro segs
    simp [_validate_segments, List.take_take]
  · intro io t msg l c hl
    by_cases ht : pyStrip t = ""
    · simp [validate_json_structure, ht]
    · by_cases hc : _extract_json_candidate io t = ""
      · simp [validate_json_structure, ht, hc]
      · rw [validate_json_structure, if_neg ht]
        simp only [if_neg hc, hl]
        exact parse_error_ne_valid msg l c
  · intro io t hc
    by_cases ht : pyStrip t = ""
    · simp [validate_json_structure, ht]
    · simp [validate_json_structure, ht, hc]

/-- Witness for C9 at a concrete transcript payload. -/
theorem C9_witness :
    pyStrip qaText₁ ≠ "" ∧
    _extract_json_candidate qio₁ qaText₁ ≠ "" ∧
    qio₁.loads (_extract_json_candidate qio₁ qaText₁) = .ok qaPayload₁ ∧
    (validate_json_structure qio₁ qaText₁ = "JSON structure is valid" ↔
      specValidPayload qaPayload₁ = true) :=
  ⟨by decide, by decide, rfl,
    C9_validator_characterization.1 qio₁ qaText₁ qaPayload₁ (by decide) (by decide) rfl⟩

/-- Witness for C7 at a whitespace input. -/
theorem C7_witness :
    pyStrip "  " = "" ∧
    (remove_filler_words
        { loads := fun _ => none, dumps := fun _ => "", clean_content_line := fun l _ => (l, 0, 0, 0),
          speaker_split := fun _ => none, api_key := none, openai_call := fun _ _ => .error "net" }
        "  " = "" ∧
      validate_json_structure qio₁ "  " = "Invalid JSON: empty input") :=
  ⟨by decide,
    C7_empty_inputs
      { loads := fun _ => none, dumps := fun _ => "", clean_content_line := fun l _ => (l, 0, 0, 0),
        speaker_split := fun _ => none, api_key := none, openai_call := fun _ _ => .error "net" }
      qio₁ "  " (by decide)⟩

/-- In verbatim mode the plain cleaner is the identity up to stripping,
with zero counters and no warnings. -/
theorem clean_plain_verbatim (io : CleanerIO) (text agg : String) :
    _clean_plain_transcript io text "verbatim" agg = (pyStrip text, zeroStats, []) := by
  simp [_clean_plain_transcript]

/-- C10 (amended): a JSON payload with effective mode `verbatim`,
`use_openai` false, a string `transcript`, and no `segments` list is
cleaned to exactly the stripped transcript with all four counters zero. -/
theorem C10_verbatim_identity (io : CleanerIO) (text : String)
    (pm : List (String × PyVal)) (m s : String)
    (ht : pyStrip text ≠ "")
    (hload : io.loads (pyStrip text) = some (.obj pm))
    (hmode : pyGet? pm "mode" = some (.str m))
    (hm : pyLower m = "verbatim")
    (huo : pyBool ((pyGet? pm "use_openai").getD (.bool false)) = false)
    (htr : pyGet? pm "transcript" = some (.str s))
    (hseg : ∀ l : List PyVal, (pyGet? pm "segments").getD .null ≠ .list l) :
    rfwCleanedText (remove_filler_words_result io text) = some (pyStrip s) ∧
      rfwStats (remove_filler_words_result io text) = some zeroStats.toPy := by
  have htext : ¬(text = "" ∨ pyStrip text = "") := by
    rintro (rfl | h2)
    · exact ht rfl
    · exact ht h2
  have hres : remove_filler_words_result io text = remove_filler_words_payload io pm := by
    rw [remove_filler_words_result, if_neg htext]
    simp only [_parse_input_payload, if_neg ht, hload]
  rw [hres, remove_filler_words_payload]
  rcases hsv : (pyGet? pm "segments").getD .null with _ | b | n | q | s' | l | mo
  case list => exact absurd hsv (hseg l)
  all_goals
    simp only [hmode, htr, huo, Option.getD_some, pyStr, hm, clean_plain_verbatim]
  all_goals
    simp [rfwCleanedText, rfwStats, rfwOutputBase, pyGet?, clean_plain_verbatim, huo,
      zeroStats, CleanStats.add, CleanStats.toPy]

/-- C10 counterexample: the counterexample payload has mode `verbatim`,
`use_openai` false and the string transcript `"a"`, yet the cleaner
returns cleaned text `"b"` (built from the `segments` list the payload
also carries), not the stripped transcript `"a"`. -/
theorem C10_counterexample :
    pyGet? cPayloadC10 "mode" = some (.str "verbatim") ∧
    pyGet? cPayloadC10 "use_openai" = some (.bool false) ∧
    pyGet? cPayloadC10 "transcript" = some (.str "a") ∧
    rfwCleanedText (remove_filler_words_result cioC10 cTextC10) = some "b" ∧
    (some "b" : Option String) ≠ some (pyStrip "a") := by
  refine ⟨rfl, rfl, rfl, ?_, by decide⟩
  decide

/-- Witness for C10 at a concrete verbatim payload without segments. -/
theorem C10_witness :
    pyStrip wTextC10 ≠ "" ∧
    cioW10.loads (pyStrip wTextC10) = some (.obj wPayloadC10) ∧
    pyGet? wPayloadC10 "mode" = some (.str "verbatim") ∧
    pyLower "verbatim" = "verbatim" ∧
    pyBool ((pyGet? wPayloadC10 "use_openai").getD (.bool false)) = false ∧
    pyGet? wPayloadC10 "transcript" = some (.str " hi ") ∧
    (rfwCleanedText (remove_filler_words_result cioW10 wTextC10) = some (pyStrip " hi ") ∧
      rfwStats (remove_filler_words_result cioW10 wTextC10) = some zeroStats.toPy) :=
  ⟨by decide, rfl, rfl, by decide, rfl, rfl,
    C10_verbatim_identity cioW10 wTextC10 wPayloadC10 "verbatim" " hi "
      (by decide) rfl rfl (by decide) rfl rfl
      (fun l h => by simp [wPayloadC10, pyGet?] at h)⟩

/-! ### Engine lemmas -/

theorem empty_append_str (s : String) : "" ++ s = s := by
  cases s; rfl

theorem output_text_single (w : String) : output_text [.message w] = w := by
  simp [output_text, String.join, List.foldl, empty_append_str]

/-- The classification (and final text) of one item pass does not depend
on the history or log accumulators. -/
theorem processItems_cls_ind (io : EngineIO) (rt : String → List (String × PyVal) → PyVal)
    (t : String) : ∀ (items : List OutputItem) (h1 h2 : List HistoryEntry)
      (l1 l2 : List OutputItem),
    (processItems io rt t h1 l1 items).cls = (processItems io rt t h2 l2 items).cls := by
  intro items
  induction items with
  | nil => intros; rfl
  | cons it rest ih =>
    intro h1 h2 l1 l2
    cases it with
    | function_call fc =>
      simp only [processItems]
      rcases io.loads fc.arguments with _ | v
      · rfl
      · rcases v with _ | b | n | q | s | l | kw <;> first | rfl | exact ih _ _ _ _
    | message t' => rfl
    | reasoning r => exact ih h1 h2 l1 l2
    | other k => exact ih h1 h2 _ _

/-- One item pass only ever appends tool-result entries to the history. -/
theorem processItems_hist (io : EngineIO) (rt : String → List (String × PyVal) → PyVal)
    (t : String) : ∀ (items : List OutputItem) (h : List HistoryEntry) (l : List OutputItem),
    ∃ res, (processItems io rt t h l items).hist = h ++ res ∧ ∀ e ∈ res, isFCO e = true := by
  intro items
  induction items with
  | nil => intro h l; exact ⟨[], by simp [processItems]⟩
  | cons it rest ih =>
    intro h l
    cases it with
    | function_call fc =>
      simp only [processItems]
      rcases io.loads fc.arguments with _ | v
      · exact ⟨[], by simp⟩
      · rcases v with _ | b | n | q | s | ll | kw
        case obj =>
          obtain ⟨res, hres, hall⟩ := ih (h ++ [.function_call_output fc.call_id (io.dumps (rt fc.name kw))]) l
          refine ⟨.function_call_output fc.call_id (io.dumps (rt fc.name kw)) :: res, ?_, ?_⟩
          · simpa [List.append_assoc] using hres
          · intro e he
            rcases List.mem_cons.mp he with rfl | he'
            · rfl
            · exact hall e he'
        all_goals exact ⟨[], by simp⟩
    | message t' => exact ⟨[], by simp [processItems]⟩
    | reasoning r => exact ih h l
    | other k => exact ih h (l ++ [.other k])

/-- One item pass only ever appends to the error log. -/
theorem processItems_log (io : EngineIO) (rt : String → List (String × PyVal) → PyVal)
    (t : String) : ∀ (items : List OutputItem) (h : List HistoryEntry) (l : List OutputItem),
    ∃ add, (processItems io rt t h l items).errLog = l ++ add := by
  intro items
  induction items with
  | nil => intro h l; exact ⟨[], by simp [processItems]⟩
  | cons it rest ih =>
    intro h l
    cases it with
    | function_call fc =>
      simp only [processItems]
      rcases io.loads fc.arguments with _ | v
      · exact ⟨[], by simp⟩
      · rcases v with _ | b | n | q | s | ll | kw
        case obj => exact ih _ l
        all_goals exact ⟨[], by simp⟩
    | message t' => exact ⟨[], by simp [processItems]⟩
    | reasoning r => exact ih h l
    | other k =>
      obtain ⟨add, hadd⟩ := ih h (l ++ [.other k])
      exact ⟨.other k :: add, by simpa [List.append_assoc] using hadd⟩

theorem fcList_cons_fc (fc : FunctionCall) (rest : List OutputItem) :
    fcList (.function_call fc :: rest) = fc :: fcList rest := rfl

theorem fcList_cons_msg (t' : String) (rest : List OutputItem) :
    fcList (.message t' :: rest) = fcList rest := rfl

theorem fcList_cons_reason (r : String) (rest : List OutputItem) :
    fcList (.reasoning r :: rest) = fcList rest := rfl

theorem fcList_cons_other (k : String) (rest : List OutputItem) :
    fcList (.other k :: rest) = fcList rest := rfl

/-- When no message precedes any function call and every arguments string
parses as an object, the pass executes every function call, appending
exactly one matching tool result each, in order, and never crashes. -/
theorem processItems_fc_run (io : EngineIO) (rt : String → List (String × PyVal) → PyVal)
    (t : String) : ∀ (items : List OutputItem) (h : List HistoryEntry) (l : List OutputItem),
    no_msg_before_fc items = true → args_ok io items = true →
    (processItems io rt t h l items).hist = h ++ (fcList items).map (fcoOf io rt) ∧
      (processItems io rt t h l items).cls ≠ .clsCrash := by
  intro items
  induction items with
  | nil => intro h l _ _; simp [processItems, fcList]
  | cons it rest ih =>
    intro h l hm ha
    cases it with
    | function_call fc =>
      have ha' := ha
      simp only [args_ok, List.all_cons, Bool.and_eq_true] at ha'
      obtain ⟨hfc, harest⟩ := ha'
      rcases hL : io.loads fc.arguments with _ | v
      · rw [hL] at hfc; simp at hfc
      · rcases v with _ | b | n | q | s | ll | kw <;> rw [hL] at hfc <;> try simp at hfc
        have hmr : no_msg_before_fc rest = true := hm
        have hfco : fcoOf io rt fc =
            .function_call_output fc.call_id (io.dumps (rt fc.name kw)) := by
          simp [fcoOf, argObj, hL]
        have hstep : processItems io rt t h l (.function_call fc :: rest) =
            processItems io rt t
              (h ++ [.function_call_output fc.call_id (io.dumps (rt fc.name kw))]) l rest := by
          simp only [processItems, hL]
        obtain ⟨ih1, ih2⟩ := ih (h ++ [.function_call_output fc.call_id (io.dumps (rt fc.name kw))]) l hmr harest
        refine ⟨?_, ?_⟩
        · rw [hstep, ih1, fcList_cons_fc, List.map_cons, hfco]
          simp
        · rw [hstep]; exact ih2
    | message t' =>
      have hfcr : fcList rest = [] := by
        have := hm
        simp only [no_msg_before_fc, List.isEmpty_iff] at this
        exact this
      refine ⟨?_, ?_⟩
      · rw [fcList_cons_msg, hfcr]
        simp [processItems]
      · simp [processItems]
    | reasoning r =>
      have hmr : no_msg_before_fc rest = true := hm
      have har : args_ok io rest = true := by
        simpa [args_ok, List.all_cons] using ha
      obtain ⟨ih1, ih2⟩ := ih h l hmr har
      refine ⟨?_, ?_⟩
      · rw [fcList_cons_reason]
        exact ih1
      · exact ih2
    | other k =>
      have hmr : no_msg_before_fc rest = true := hm
      have har : args_ok io rest = true := by
        simpa [args_ok, List.all_cons] using ha
      obtain ⟨ih1, ih2⟩ := ih h (l ++ [.other k]) hmr har
      refine ⟨?_, ?_⟩
      · rw [fcList_cons_other]
        exact ih1
      · exact ih2

/-- Executing a message-free prefix and hitting the first message item
ends the pass, returning the response's aggregated text, with tool
results recorded exactly for the prefix's function calls. -/
theorem processItems_message (io : EngineIO) (rt : String → List (String × PyVal) → PyVal)
    (t : String) : ∀ (pre : List OutputItem) (h : List HistoryEntry) (l : List OutputItem)
      (tmsg : String) (post : List OutputItem),
    (∀ it ∈ pre, isMsg it = false) → args_ok io pre = true →
    ∃ l', processItems io rt t h l (pre ++ .message tmsg :: post) =
      ⟨.clsDone t, h ++ (fcList pre).map (fcoOf io rt), l'⟩ := by
  intro pre
  induction pre with
  | nil => intro h l tmsg post _ _; exact ⟨l, by simp [processItems, fcList]⟩
  | cons it rest ih =>
    intro h l tmsg post hm ha
    have hmr : ∀ it ∈ rest, isMsg it = false := fun x hx => hm x (List.mem_cons_of_mem it hx)
    cases it with
    | function_call fc =>
      have ha' := ha
      simp only [args_ok, List.all_cons, Bool.and_eq_true] at ha'
      obtain ⟨hfc, harest⟩ := ha'
      rcases hL : io.loads fc.arguments with _ | v
      · rw [hL] at hfc; simp at hfc
      · rcases v with _ | b | n | q | s | ll | kw <;> rw [hL] at hfc <;> try simp at hfc
        have hfco : fcoOf io rt fc =
            .function_call_output fc.call_id (io.dumps (rt fc.name kw)) := by
          simp [fcoOf, argObj, hL]
        obtain ⟨l', hl'⟩ := ih (h ++ [.function_call_output fc.call_id (io.dumps (rt fc.name kw))])
          l tmsg post hmr harest
        refine ⟨l', ?_⟩
        have hstep : processItems io rt t h l ((OutputItem.function_call fc :: rest) ++ .message tmsg :: post) =
            processItems io rt t
              (h ++ [.function_call_output fc.call_id (io.dumps (rt fc.name kw))]) l
              (rest ++ .message tmsg :: post) := by
          simp only [List.cons_append, processItems, hL, List.append_eq]
        rw [hstep, hl']
        congr 1
        rw [fcList_cons_fc, List.map_cons, hfco]
        simp
    | message t' =>
      have := hm (.message t') (List.mem_cons_self _ _)
      simp [isMsg] at this
    | reasoning r =>
      have har : args_ok io rest = true := by simpa [args_ok, List.all_cons] using ha
      obtain ⟨l', hl'⟩ := ih h l tmsg post hmr har
      refine ⟨l', ?_⟩
      have hstep : processItems io rt t h l ((OutputItem.reasoning r :: rest) ++ .message tmsg :: post) =
          processItems io rt t h l (rest ++ .message tmsg :: post) := by
        simp only [List.cons_append, processItems, List.append_eq]
      rw [hstep, hl', fcList_cons_reason]
    | other k =>
      have har : args_ok io rest = true := by simpa [args_ok, List.all_cons] using ha
      obtain ⟨l', hl'⟩ := ih h (l ++ [.other k]) tmsg post hmr har
      refine ⟨l', ?_⟩
      have hstep : processItems io rt t h l ((OutputItem.other k :: rest) ++ .message tmsg :: post) =
          processItems io rt t h (l ++ [.other k]) (rest ++ .message tmsg :: post) := by
        simp only [List.cons_append, processItems, List.append_eq]
      rw [hstep, hl', fcList_cons_other]

/-- A message-free pass that does not crash continues the loop. -/
theorem processItems_no_msg_cls (io : EngineIO) (rt : String → List (String × PyVal) → PyVal)
    (t : String) : ∀ (items : List OutputItem) (h : List HistoryEntry) (l : List OutputItem),
    (∀ it ∈ items, isMsg it = false) →
    (processItems io rt t h l items).cls = .clsNext ∨
      (processItems io rt t h l items).cls = .clsCrash := by
  intro items
  induction items with
  | nil => intro h l _; left; rfl
  | cons it rest ih =>
    intro h l hm
    have hmr : ∀ x ∈ rest, isMsg x = false := fun x hx => hm x (List.mem_cons_of_mem it hx)
    cases it with
    | function_call fc =>
      simp only [processItems]
      rcases io.loads fc.arguments with _ | v
      · right; rfl
      · rcases v with _ | b | n | q | s | ll | kw
        case obj => exact ih _ l hmr
        all_goals right; rfl
    | message t' =>
      have := hm (.message t') (List.mem_cons_self _ _)
      simp [isMsg] at this
    | reasoning r => exact ih h l hmr
    | other k => exact ih h (l ++ [.other k]) hmr

/-- The requests a loop run emits start with the accumulated requests,
then (when at least one response is processed) the history current at the
first iteration. -/
theorem runLoop_reqs_shape (io : EngineIO) (rt : String → List (String × PyVal) → PyVal) :
    ∀ (script : List (List OutputItem)) (reqs : List (List HistoryEntry))
      (log : List OutputItem) (hist : List HistoryEntry),
    (script = [] → (runLoop io rt reqs log hist script).requests = reqs) ∧
      (script ≠ [] → ∃ tl, (runLoop io rt reqs log hist script).requests = reqs ++ hist :: tl) := by
  intro script
  induction script with
  | nil => intro reqs log hist; exact ⟨fun _ => rfl, fun hne => absurd rfl hne⟩
  | cons out rest ih =>
    intro reqs log hist
    refine ⟨(fun hcontra => nomatch hcontra), fun _ => ?_⟩
    rcases hp : processItems io rt (output_text out) (hist ++ out.map HistoryEntry.output) log out
      with ⟨c, h1, l1⟩
    cases c with
    | clsDone td =>
      refine ⟨[], ?_⟩
      simp [runLoop, hp]
    | clsCrash =>
      refine ⟨[], ?_⟩
      simp [runLoop, hp]
    | clsNext =>
      rcases rest with _ | ⟨out2, rest2⟩
      · refine ⟨[], ?_⟩
        simp [runLoop, hp]
      · obtain ⟨tl, htl⟩ := (ih (reqs ++ [hist]) l1 h1).2 (by simp)
        refine ⟨h1 :: tl, ?_⟩
        have hgoal : (runLoop io rt reqs log hist (out :: out2 :: rest2)).requests
            = (runLoop io rt (reqs ++ [hist]) l1 h1 (out2 :: rest2)).requests := by
          simp only [runLoop, hp]
        rw [hgoal, htl]
        simp

/-- Consecutive recorded requests (and the final history) form a chain of
`HistExtend` extensions: each one is the previous plus that response's
output items plus tool results. -/
theorem runLoop_chain (io : EngineIO) (rt : String → List (String × PyVal) → PyVal) :
    ∀ (script : List (List OutputItem)) (reqs : List (List HistoryEntry))
      (log : List OutputItem) (hist : List HistoryEntry),
    List.Chain' HistExtend (reqs ++ [hist]) →
    List.Chain' HistExtend ((runLoop io rt reqs log hist script).requests ++
      [(runLoop io rt reqs log hist script).history]) := by
  intro script
  induction script with
  | nil => intro reqs log hist hinv; simpa [runLoop] using hinv
  | cons out rest ih =>
    intro reqs log hist hinv
    rcases hp : processItems io rt (output_text out) (hist ++ out.map HistoryEntry.output) log out
      with ⟨c, h1, l1⟩
    have hhist : ∃ res, h1 = hist ++ out.map HistoryEntry.output ++ res ∧ ∀ e ∈ res, isFCO e = true := by
      obtain ⟨res, hres, hall⟩ :=
        processItems_hist io rt (output_text out) out (hist ++ out.map HistoryEntry.output) log
      rw [hp] at hres
      exact ⟨res, hres, hall⟩
    have hext : HistExtend hist h1 := by
      obtain ⟨res, hres, hall⟩ := hhist
      exact ⟨out, res, hres, hall⟩
    have hinv' : List.Chain' HistExtend ((reqs ++ [hist]) ++ [h1]) := by
      rw [List.chain'_append]
      refine ⟨hinv, List.chain'_singleton _, ?_⟩
      intro x hx y hy
      rw [List.getLast?_concat] at hx
      simp only [List.head?_cons, Option.mem_def, Option.some.injEq] at hx hy
      subst hx
      subst hy
      exact hext
    cases c with
    | clsDone td =>
      have hres : runLoop io rt reqs log hist (out :: rest) = ⟨.finished td, reqs ++ [hist], h1, l1⟩ := by
        simp only [runLoop, hp]
      rw [hres]
      simpa using hinv'
    | clsCrash =>
      have hres : runLoop io rt reqs log hist (out :: rest) = ⟨.crashed, reqs ++ [hist], h1, l1⟩ := by
        simp only [runLoop, hp]
      rw [hres]
      simpa using hinv'
    | clsNext =>
      have heq : runLoop io rt reqs log hist (out :: rest) =
          runLoop io rt (reqs ++ [hist]) l1 h1 rest := by
        simp only [runLoop, hp]
      rw [heq]
      exact ih (reqs ++ [hist]) l1 h1 hinv'

/-- Every request a loop run records is either an accumulated request or
an extension of the history the run started from. -/
theorem runLoop_reqs_extend (io : EngineIO) (rt : String → List (String × PyVal) → PyVal) :
    ∀ (script : List (List OutputItem)) (reqs : List (List HistoryEntry))
      (log : List OutputItem) (hist r : List HistoryEntry),
    r ∈ (runLoop io rt reqs log hist script).requests →
    r ∈ reqs ∨ ∃ tl, r = hist ++ tl := by
  intro script
  induction script with
  | nil => intro reqs log hist r hr; left; simpa [runLoop] using hr
  | cons out rest ih =>
    intro reqs log hist r hr
    rcases hp : processItems io rt (output_text out) (hist ++ out.map HistoryEntry.output) log out
      with ⟨c, h1, l1⟩
    have hhist : ∃ res, h1 = hist ++ out.map HistoryEntry.output ++ res := by
      obtain ⟨res, hres, _⟩ :=
        processItems_hist io rt (output_text out) out (hist ++ out.map HistoryEntry.output) log
      rw [hp] at hres
      exact ⟨res, hres⟩
    cases c with
    | clsDone td =>
      have hres : runLoop io rt reqs log hist (out :: rest) = ⟨.finished td, reqs ++ [hist], h1, l1⟩ := by
        simp only [runLoop, hp]
      rw [hres] at hr
      rcases List.mem_append.mp hr with h | h
      · exact Or.inl h
      · simp only [List.mem_singleton] at h
        exact Or.inr ⟨[], by simp [h]⟩
    | clsCrash =>
      have hres : runLoop io rt reqs log hist (out :: rest) = ⟨.crashed, reqs ++ [hist], h1, l1⟩ := by
        simp only [runLoop, hp]
      rw [hres] at hr
      rcases List.mem_append.mp hr with h | h
      · exact Or.inl h
      · simp only [List.mem_singleton] at h
        exact Or.inr ⟨[], by simp [h]⟩
    | clsNext =>
      have heq : runLoop io rt reqs log hist (out :: rest) =
          runLoop io rt (reqs ++ [hist]) l1 h1 rest := by
        simp only [runLoop, hp]
      rw [heq] at hr
      rcases ih (reqs ++ [hist]) l1 h1 r hr with h | ⟨tl, htl⟩
      · rcases List.mem_append.mp h with h' | h'
        · exact Or.inl h'
        · simp only [List.mem_singleton] at h'
          exact Or.inr ⟨[], by simp [h']⟩
      · obtain ⟨res, hres⟩ := hhist
        refine Or.inr ⟨out.map HistoryEntry.output ++ res ++ tl, ?_⟩
        rw [htl, hres]
        simp [List.append_assoc]

/-- The outcome of a loop run does not depend on the request, log or
history accumulators. -/
theorem runLoop_outcome_ind (io : EngineIO) (rt : String → List (String × PyVal) → PyVal) :
    ∀ (script : List (List OutputItem)) (reqs1 : List (List HistoryEntry))
      (log1 : List OutputItem) (hist1 : List HistoryEntry) reqs2 log2 hist2,
    (runLoop io rt reqs1 log1 hist1 script).outcome =
      (runLoop io rt reqs2 log2 hist2 script).outcome := by
  intro script
  induction script with
  | nil => intros; rfl
  | cons out rest ih =>
    intro reqs1 log1 hist1 reqs2 log2 hist2
    rcases hp1 : processItems io rt (output_text out) (hist1 ++ out.map HistoryEntry.output) log1 out
      with ⟨c1, h1, l1⟩
    rcases hp2 : processItems io rt (output_text out) (hist2 ++ out.map HistoryEntry.output) log2 out
      with ⟨c2, h2, l2⟩
    have hc : c1 = c2 := by
      have h := processItems_cls_ind io rt (output_text out) out
        (hist1 ++ out.map HistoryEntry.output) (hist2 ++ out.map HistoryEntry.output) log1 log2
      rw [hp1, hp2] at h
      exact h
    subst hc
    cases c1 with
    | clsDone td =>
      have e1 : runLoop io rt reqs1 log1 hist1 (out :: rest) = ⟨.finished td, reqs1 ++ [hist1], h1, l1⟩ := by
        simp only [runLoop, hp1]
      have e2 : runLoop io rt reqs2 log2 hist2 (out :: rest) = ⟨.finished td, reqs2 ++ [hist2], h2, l2⟩ := by
        simp only [runLoop, hp2]
      rw [e1, e2]
    | clsCrash =>
      have e1 : runLoop io rt reqs1 log1 hist1 (out :: rest) = ⟨.crashed, reqs1 ++ [hist1], h1, l1⟩ := by
        simp only [runLoop, hp1]
      have e2 : runLoop io rt reqs2 log2 hist2 (out :: rest) = ⟨.crashed, reqs2 ++ [hist2], h2, l2⟩ := by
        simp only [runLoop, hp2]
      rw [e1, e2]
    | clsNext =>
      have e1 : runLoop io rt reqs1 log1 hist1 (out :: rest) =
          runLoop io rt (reqs1 ++ [hist1]) l1 h1 rest := by
        simp only [runLoop, hp1]
      have e2 : runLoop io rt reqs2 log2 hist2 (out :: rest) =
          runLoop io rt (reqs2 ++ [hist2]) l2 h2 rest := by
        simp only [runLoop, hp2]
      rw [e1, e2]
      exact ih _ _ _ _ _ _

/-- Inserting an unrecognized item into a response does not change the
pass classification. -/
theorem processItems_other_cls (io : EngineIO) (rt : String → List (String × PyVal) → PyVal)
    (t : String) : ∀ (o1 : List OutputItem) (k : String) (o2 : List OutputItem)
      (h : List HistoryEntry) (l : List OutputItem) (h2 : List HistoryEntry) (l2 : List OutputItem),
    (processItems io rt t h l (o1 ++ .other k :: o2)).cls =
      (processItems io rt t h2 l2 (o1 ++ o2)).cls := by
  intro o1 k o2
  induction o1 with
  | nil =>
    intro h l h2 l2
    have hstep : processItems io rt t h l ([] ++ OutputItem.other k :: o2) =
        processItems io rt t h (l ++ [.other k]) o2 := by
      simp only [List.nil_append, processItems]
    rw [hstep]
    exact processItems_cls_ind io rt t o2 h h2 _ l2
  | cons it rest ih =>
    intro h l h2 l2
    cases it with
    | function_call fc =>
      simp only [List.cons_append, processItems]
      rcases io.loads fc.arguments with _ | v
      · rfl
      · rcases v with _ | b | n | q | s | ll | kw <;> first | rfl | exact ih _ _ _ _
    | message t' => rfl
    | reasoning r => exact ih h l h2 l2
    | other k2 => exact ih h (l ++ [.other k2]) h2 (l2 ++ [.other k2])

/-- The SDK `response.output_text` ignores unrecognized items. -/
theorem output_text_other (o1 : List OutputItem) (k : String) (o2 : List OutputItem) :
    output_text (o1 ++ .other k :: o2) = output_text (o1 ++ o2) := by
  simp [output_text, List.filterMap_append, List.filterMap_cons]

/-- Inserting an unrecognized item into any one response leaves the run's
outcome unchanged. -/
theorem runLoop_other_outcome (io : EngineIO) (rt : String → List (String × PyVal) → PyVal) :
    ∀ (s1 : List (List OutputItem)) (reqs : List (List HistoryEntry))
      (log : List OutputItem) (hist : List HistoryEntry)
      (o1 : List OutputItem) (k : String) (o2 : List OutputItem) (s2 : List (List OutputItem)),
    (runLoop io rt reqs log hist (s1 ++ (o1 ++ .other k :: o2) :: s2)).outcome =
      (runLoop io rt reqs log hist (s1 ++ (o1 ++ o2) :: s2)).outcome := by
  intro s1
  induction s1 with
  | nil =>
    intro reqs log hist o1 k o2 s2
    rcases hp1 : processItems io rt (output_text (o1 ++ o2))
        (hist ++ (o1 ++ .other k :: o2).map HistoryEntry.output) log (o1 ++ .other k :: o2)
      with ⟨c1, h1, l1⟩
    rcases hp2 : processItems io rt (output_text (o1 ++ o2))
        (hist ++ (o1 ++ o2).map HistoryEntry.output) log (o1 ++ o2)
      with ⟨c2, h2, l2⟩
    have hc : c1 = c2 := by
      have h := processItems_other_cls io rt (output_text (o1 ++ o2)) o1 k o2
        (hist ++ (o1 ++ .other k :: o2).map HistoryEntry.output) log
        (hist ++ (o1 ++ o2).map HistoryEntry.output) log
      rw [hp1, hp2] at h
      exact h
    have hp1' : processItems io rt (output_text (o1 ++ .other k :: o2))
        (hist ++ (o1 ++ .other k :: o2).map HistoryEntry.output) log (o1 ++ .other k :: o2)
        = ⟨c1, h1, l1⟩ := by
      rw [output_text_other]; exact hp1
    subst hc
    cases c1 with
    | clsDone td =>
      have e1 : runLoop io rt reqs log hist ((o1 ++ .other k :: o2) :: s2) =
          ⟨.finished td, reqs ++ [hist], h1, l1⟩ := by
        simp only [runLoop, hp1']
      have e2 : runLoop io rt reqs log hist ((o1 ++ o2) :: s2) =
          ⟨.finished td, reqs ++ [hist], h2, l2⟩ := by
        simp only [runLoop, hp2]
      simp only [List.nil_append, e1, e2]
    | clsCrash =>
      have e1 : runLoop io rt reqs log hist ((o1 ++ .other k :: o2) :: s2) =
          ⟨.crashed, reqs ++ [hist], h1, l1⟩ := by
        simp only [runLoop, hp1']
      have e2 : runLoop io rt reqs log hist ((o1 ++ o2) :: s2) =
          ⟨.crashed, reqs ++ [hist], h2, l2⟩ := by
        simp only [runLoop, hp2]
      simp only [List.nil_append, e1, e2]
    | clsNext =>
      have e1 : runLoop io rt reqs log hist ((o1 ++ .other k :: o2) :: s2) =
          runLoop io rt (reqs ++ [hist]) l1 h1 s2 := by
        simp only [runLoop, hp1']
      have e2 : runLoop io rt reqs log hist ((o1 ++ o2) :: s2) =
          runLoop io rt (reqs ++ [hist]) l2 h2 s2 := by
        simp only [runLoop, hp2]
      simp only [List.nil_append, e1, e2]
      exact runLoop_outcome_ind io rt s2 _ _ _ _ _ _
  | cons r s1' ih =>
    intro reqs log hist o1 k o2 s2
    rcases hp : processItems io rt (output_text r) (hist ++ r.map HistoryEntry.output) log r
      with ⟨c, h1, l1⟩
    cases c with
    | clsDone td =>
      have e1 : runLoop io rt reqs log hist ((r :: s1') ++ (o1 ++ .other k :: o2) :: s2) =
          ⟨.finished td, reqs ++ [hist], h1, l1⟩ := by
        simp only [List.cons_append, runLoop, hp, List.append_eq]
      have e2 : runLoop io rt reqs log hist ((r :: s1') ++ (o1 ++ o2) :: s2) =
          ⟨.finished td, reqs ++ [hist], h1, l1⟩ := by
        simp only [List.cons_append, runLoop, hp, List.append_eq]
      rw [e1, e2]
    | clsCrash =>
      have e1 : runLoop io rt reqs log hist ((r :: s1') ++ (o1 ++ .other k :: o2) :: s2) =
          ⟨.crashed, reqs ++ [hist], h1, l1⟩ := by
        simp only [List.cons_append, runLoop, hp, List.append_eq]
      have e2 : runLoop io rt reqs log hist ((r :: s1') ++ (o1 ++ o2) :: s2) =
          ⟨.crashed, reqs ++ [hist], h1, l1⟩ := by
        simp only [List.cons_append, runLoop, hp, List.append_eq]
      rw [e1, e2]
    | clsNext =>
      have e1 : runLoop io rt reqs log hist ((r :: s1') ++ (o1 ++ .other k :: o2) :: s2) =
          runLoop io rt (reqs ++ [hist]) l1 h1 (s1' ++ (o1 ++ .other k :: o2) :: s2) := by
        simp only [List.cons_append, runLoop, hp, List.append_eq]
      have e2 : runLoop io rt reqs log hist ((r :: s1') ++ (o1 ++ o2) :: s2) =
          runLoop io rt (reqs ++ [hist]) l1 h1 (s1' ++ (o1 ++ o2) :: s2) := by
        simp only [List.cons_append, runLoop, hp, List.append_eq]
      rw [e1, e2]
      exact ih _ _ _ _ _ _ _

/-- When control reaches an unrecognized item, the item lands in the
error log. -/
theorem processItems_other_logged (io : EngineIO) (rt : String → List (String × PyVal) → PyVal)
    (t : String) : ∀ (o1 : List OutputItem) (h : List HistoryEntry) (l : List OutputItem)
      (k : String) (o2 : List OutputItem),
    (processItems io rt t h l o1).cls = .clsNext →
    .other k ∈ (processItems io rt t h l (o1 ++ .other k :: o2)).errLog := by
  intro o1
  induction o1 with
  | nil =>
    intro h l k o2 _
    have hstep : processItems io rt t h l ([] ++ OutputItem.other k :: o2) =
        processItems io rt t h (l ++ [.other k]) o2 := by
      simp only [List.nil_append, processItems]
    rw [hstep]
    obtain ⟨add, hadd⟩ := processItems_log io rt t o2 h (l ++ [.other k])
    rw [hadd]
    simp
  | cons it rest ih =>
    intro h l k o2 hcls
    cases it with
    | function_call fc =>
      rcases hL : io.loads fc.arguments with _ | v
      · rw [show (processItems io rt t h l (.function_call fc :: rest)).cls = StepClass.clsCrash
            from by simp only [processItems, hL]] at hcls
        cases hcls
      · rcases v with _ | b | n | q | s | ll | kw
        case obj =>
          have hcls' : (processItems io rt t
              (h ++ [.function_call_output fc.call_id (io.dumps (rt fc.name kw))]) l rest).cls
              = .clsNext := by
            rw [← hcls]
            simp only [processItems, hL]
          have hmem := ih (h ++ [.function_call_output fc.call_id (io.dumps (rt fc.name kw))]) l k o2 hcls'
          simpa only [List.cons_append, processItems, hL] using hmem
        all_goals
          rw [show (processItems io rt t h l (.function_call fc :: rest)).cls = StepClass.clsCrash
              from by simp only [processItems, hL]] at hcls
        all_goals cases hcls
    | message t' =>
      rw [show (processItems io rt t h l (.message t' :: rest)).cls = StepClass.clsDone t
          from by simp only [processItems]] at hcls
      cases hcls
    | reasoning r =>
      have hcls' : (processItems io rt t h l rest).cls = .clsNext := hcls
      have hmem := ih h l k o2 hcls'
      simpa only [List.cons_append, processItems] using hmem
    | other k2 =>
      have hcls' : (processItems io rt t h (l ++ [.other k2]) rest).cls = .clsNext := hcls
      have hmem := ih h (l ++ [.other k2]) k o2 hcls'
      simpa only [List.cons_append, processItems] using hmem

/-- A run whose first response ends in a `message` pass returns that
pass's text at once. -/
theorem run_single_done (io : EngineIO) (rt : String → List (String × PyVal) → PyVal)
    (a : Agent) (msg : Option String) (out : List OutputItem) (rest : List (List OutputItem))
    (t : String) (h1 : List HistoryEntry) (l1 : List OutputItem)
    (hp : processItems io rt (output_text out)
        (seed_history a msg ++ out.map HistoryEntry.output) [] out = ⟨.clsDone t, h1, l1⟩) :
    run_agent io rt a msg (out :: rest) = ⟨.finished t, [seed_history a msg], h1, l1⟩ := by
  simp only [run_agent, runLoop, hp, List.nil_append]

/-- A run whose first response pass continues proceeds from the grown
history. -/
theorem run_single_next (io : EngineIO) (rt : String → List (String × PyVal) → PyVal)
    (a : Agent) (msg : Option String) (out : List OutputItem) (rest : List (List OutputItem))
    (h1 : List HistoryEntry) (l1 : List OutputItem)
    (hp : processItems io rt (output_text out)
        (seed_history a msg ++ out.map HistoryEntry.output) [] out = ⟨.clsNext, h1, l1⟩) :
    run_agent io rt a msg (out :: rest) = runLoop io rt [seed_history a msg] l1 h1 rest := by
  simp only [run_agent, runLoop, hp, List.nil_append]

/-- C1 (amended): for a response in which no message item precedes any
function-call item and every function call's arguments string parses as a
JSON object, the engine executes every function call, appending exactly
one tool result per call, carrying the call's `call_id`, in the order the
calls were received, without crashing; and the history sent on the next
backend request already contains all of these output-item/tool-result
entries. -/
theorem C1_tool_call_pairing :
    (∀ (io : EngineIO) (rt : String → List (String × PyVal) → PyVal)
        (t : String) (hist : List HistoryEntry) (log : List OutputItem)
        (items : List OutputItem),
        no_msg_before_fc items = true → args_ok io items = true →
        (processItems io rt t hist log items).hist =
            hist ++ (fcList items).map (fcoOf io rt) ∧
          (processItems io rt t hist log items).cls ≠ .clsCrash)
    ∧ (∀ (io : EngineIO) (rt : String → List (String × PyVal) → PyVal)
        (a : Agent) (msg : Option String) (out out2 : List OutputItem)
        (rest : List (List OutputItem)),
        no_msg_before_fc out = true → args_ok io out = true →
        (∀ it ∈ out, isMsg it = false) →
        (run_agent io rt a msg (out :: out2 :: rest)).requests.get? 1 =
          some (seed_history a msg ++ out.map HistoryEntry.output ++
            (fcList out).map (fcoOf io rt))) := by
  constructor
  · intro io rt t hist log items hm ha
    exact processItems_fc_run io rt t items hist log hm ha
  · intro io rt a msg out out2 rest hm ha hall
    rcases hp : processItems io rt (output_text out)
        (seed_history a msg ++ out.map HistoryEntry.output) [] out with ⟨c, h1, l1⟩
    obtain ⟨hh, hnc⟩ := processItems_fc_run io rt (output_text out) out
      (seed_history a msg ++ out.map HistoryEntry.output) [] hm ha
    have hcls := processItems_no_msg_cls io rt (output_text out) out
      (seed_history a msg ++ out.map HistoryEntry.output) [] hall
    rw [hp] at hh hnc hcls
    have hc : c = .clsNext := by
      rcases hcls with h | h
      · exact h
      · exact absurd h hnc
    subst hc
    have hrun := run_single_next io rt a msg out (out2 :: rest) h1 l1 hp
    rw [hrun]
    obtain ⟨tl, htl⟩ := (runLoop_reqs_shape io rt (out2 :: rest) [seed_history a msg] l1 h1).2 (by simp)
    rw [htl]
    simp only [List.singleton_append, List.get?_cons_succ, List.get?_cons_zero]
    have hh' : h1 = seed_history a msg ++ List.map HistoryEntry.output out ++
        List.map (fcoOf io rt) (fcList out) := hh
    rw [hh']

/-- C1 counterexample: a single function-call response whose arguments
string is not JSON (`json.loads` raises) crashes the run and appends no
tool-result entry at all, instead of invoking the tool. -/
theorem C1_counterexample :
    (run_agent io₀bad rt₀ a₀ none [[.function_call fcBad]]).outcome = .crashed ∧
      (run_agent io₀bad rt₀ a₀ none [[.function_call fcBad]]).history.filter isFCO = [] := by
  decide

/-- Witness for C1 at a one-call response followed by a message turn. -/
theorem C1_witness :
    no_msg_before_fc [.function_call fcGood] = true ∧
    args_ok io₀e [.function_call fcGood] = true ∧
    (∀ it ∈ [OutputItem.function_call fcGood], isMsg it = false) ∧
    (run_agent io₀e rt₀ a₀ none
        ([.function_call fcGood] :: [.message "bye"] :: [])).requests.get? 1 =
      some (seed_history a₀ none ++ [OutputItem.function_call fcGood].map HistoryEntry.output ++
        (fcList [.function_call fcGood]).map (fcoOf io₀e rt₀)) :=
  ⟨by decide, by decide, by decide,
    C1_tool_call_pairing.2 io₀e rt₀ a₀ none _ _ _ (by decide) (by decide) (by decide)⟩

/-- C2 (amended): when every item before the first message item is
message-free and parseable, the turn loop ends at that first message item
— no tool is invoked for items after it and no further backend request is
made — and the value returned is `response.output_text`, the concatenation
of the texts of all message items of the response (equal to the first
message's text only when it is the sole message item). -/
theorem C2_first_message_truncation (io : EngineIO)
    (rt : String → List (String × PyVal) → PyVal) (a : Agent) (msg : Option String)
    (pre : List OutputItem) (tmsg : String) (post : List OutputItem)
    (rest : List (List OutputItem))
    (hm : ∀ it ∈ pre, isMsg it = false) (ha : args_ok io pre = true) :
    (run_agent io rt a msg ((pre ++ .message tmsg :: post) :: rest)).outcome =
        .finished (output_text (pre ++ .message tmsg :: post)) ∧
      (run_agent io rt a msg ((pre ++ .message tmsg :: post) :: rest)).requests =
        [seed_history a msg] ∧
      (run_agent io rt a msg ((pre ++ .message tmsg :: post) :: rest)).history =
        seed_history a msg ++ (pre ++ .message tmsg :: post).map HistoryEntry.output ++
          (fcList pre).map (fcoOf io rt) := by
  obtain ⟨l', hp⟩ := processItems_message io rt (output_text (pre ++ .message tmsg :: post)) pre
    (seed_history a msg ++ (pre ++ .message tmsg :: post).map HistoryEntry.output) []
    tmsg post hm ha
  have hrun := run_single_done io rt a msg (pre ++ .message tmsg :: post) rest
    (output_text (pre ++ .message tmsg :: post)) _ l' hp
  rw [hrun]
  exact ⟨rfl, rfl, rfl⟩

/-- C2 counterexample: a response with two message items returns the
concatenation `"ab"` of both texts, not the first message's text `"a"`. -/
theorem C2_counterexample :
    (run_agent io₀e rt₀ a₀ none [[.message "a", .message "b"]]).outcome = .finished "ab" ∧
      Outcome.finished "ab" ≠ .finished "a" := by
  constructor
  · decide
  · decide

/-- Witness for C2: the loop ends at the first (sole) message even though
a malformed function call follows it in the same response. -/
theorem C2_witness :
    (∀ it ∈ [OutputItem.reasoning "r"], isMsg it = false) ∧
    args_ok io₀e [.reasoning "r"] = true ∧
    ((run_agent io₀e rt₀ a₀ none
          [[OutputItem.reasoning "r"] ++ OutputItem.message "hi" :: [OutputItem.function_call fcBad]]).outcome =
        .finished (output_text ([OutputItem.reasoning "r"] ++
          OutputItem.message "hi" :: [OutputItem.function_call fcBad])) ∧
      (run_agent io₀e rt₀ a₀ none
          [[OutputItem.reasoning "r"] ++ OutputItem.message "hi" :: [OutputItem.function_call fcBad]]).requests =
        [seed_history a₀ none] ∧
      (run_agent io₀e rt₀ a₀ none
          [[OutputItem.reasoning "r"] ++ OutputItem.message "hi" :: [OutputItem.function_call fcBad]]).history =
        seed_history a₀ none ++
          ([OutputItem.reasoning "r"] ++ OutputItem.message "hi" :: [OutputItem.function_call fcBad]).map
            HistoryEntry.output ++
          (fcList [OutputItem.reasoning "r"]).map (fcoOf io₀e rt₀)) :=
  ⟨by decide, by decide,
    C2_first_message_truncation io₀e rt₀ a₀ none [.reasoning "r"] "hi" [.function_call fcBad] []
      (by decide) (by decide)⟩

/-- A turn whose scripted response is a single message finishes with that
message's text, the history having gained exactly that output item. -/
theorem runLoop_message_full (io : EngineIO) (rt : String → List (String × PyVal) → PyVal)
    (reqs : List (List HistoryEntry)) (log : List OutputItem) (hist : List HistoryEntry)
    (w : String) (rest : List (List OutputItem)) :
    runLoop io rt reqs log hist ([.message w] :: rest) =
      ⟨.finished (output_text [.message w]), reqs ++ [hist],
        hist ++ [OutputItem.message w].map HistoryEntry.output, log⟩ := by
  simp only [runLoop, processItems]

theorem runLoop_message_outcome (io : EngineIO) (rt : String → List (String × PyVal) → PyVal)
    (reqs : List (List HistoryEntry)) (log : List OutputItem) (hist : List HistoryEntry)
    (w : String) (rest : List (List OutputItem)) :
    (runLoop io rt reqs log hist ([.message w] :: rest)).outcome = .finished w := by
  rw [runLoop_message_full, output_text_single]

/-- C3 (amended): a failure raised by a tool body is caught by the
dispatch wrapper (`run_tool`, modelled from the spec) and serialized into
that call's tool result, and the loop continues and completes normally;
but a failure parsing the call's arguments JSON happens in the engine
before dispatch and is not caught (see the counterexample). -/
theorem C3_tool_failure_serialized :
    (∀ (io : EngineIO) (body : String → List (String × PyVal) → Except String PyVal)
        (nm args cid : String) (kwargs : List (String × PyVal)) (e : String)
        (t : String) (hist : List HistoryEntry) (log : List OutputItem),
        io.loads args = some (.obj kwargs) →
        body nm kwargs = .error e →
        processItems io (run_tool body) t hist log [.function_call ⟨nm, args, cid⟩] =
          ⟨.clsNext,
            hist ++ [.function_call_output cid (io.dumps (.obj [("error", .str e)]))], log⟩)
    ∧ (∀ (io : EngineIO) (body : String → List (String × PyVal) → Except String PyVal)
        (a : Agent) (msg : Option String) (nm args cid : String)
        (kwargs : List (String × PyVal)) (e : String) (w : String),
        io.loads args = some (.obj kwargs) →
        body nm kwargs = .error e →
        (run_agent io (run_tool body) a msg
            [[.function_call ⟨nm, args, cid⟩], [.message w]]).outcome = .finished w) := by
  constructor
  · intro io body nm args cid kwargs e t hist log hL hbody
    simp only [processItems, hL, run_tool, hbody]
  · intro io body a msg nm args cid kwargs e w hL hbody
    have hp : processItems io (run_tool body)
        (output_text [.function_call ⟨nm, args, cid⟩])
        (seed_history a msg ++ [OutputItem.function_call ⟨nm, args, cid⟩].map HistoryEntry.output)
        [] [.function_call ⟨nm, args, cid⟩] =
        ⟨.clsNext,
          seed_history a msg ++ [OutputItem.function_call ⟨nm, args, cid⟩].map HistoryEntry.output ++
            [.function_call_output cid (io.dumps (.obj [("error", .str e)]))], []⟩ := by
      simp only [processItems, hL, run_tool, hbody]
    have hrun := run_single_next io (run_tool body) a msg [.function_call ⟨nm, args, cid⟩]
      [[.message w]] _ _ hp
    rw [hrun]
    exact runLoop_message_outcome io (run_tool body) _ _ _ w []

/-- C3 counterexample: an unparsable arguments string makes
`json.loads(item.arguments)` raise in the engine before the registry is
reached, aborting the conversation loop instead of surfacing an error
result. -/
theorem C3_counterexample :
    (run_agent io₀bad (run_tool body₀) a₀ none
        [[.function_call fcBad2], [.message "w"]]).outcome = .crashed ∧
      Outcome.crashed ≠ .finished "w" := by
  constructor
  · decide
  · decide

/-- Witness for C3 at a concrete raising tool body. -/
theorem C3_witness :
    io₀e.loads "\x7b\x7d" = some (.obj []) ∧
    body₁ "tool" [] = .error "boom" ∧
    (run_agent io₀e (run_tool body₁) a₀ none
        [[.function_call ⟨"tool", "\x7b\x7d", "c1"⟩], [.message "done"]]).outcome =
      .finished "done" :=
  ⟨rfl, rfl,
    C3_tool_failure_serialized.2 io₀e body₁ a₀ none "tool" "\x7b\x7d" "c1" [] "boom" "done" rfl rfl⟩

/-- C5: the engine records the full accumulated history as every backend
request: the first request is the seeded history, and each later request
(and the final history) extends the previous request by exactly that
turn's output items followed by tool-result entries — the history is
append-only and the only state carried between requests. -/
theorem C5_full_history_resend (io : EngineIO) (rt : String → List (String × PyVal) → PyVal)
    (a : Agent) (msg : Option String) (script : List (List OutputItem)) :
    ((run_agent io rt a msg script).requests ≠ [] →
      (run_agent io rt a msg script).requests.head? = some (seed_history a msg)) ∧
    List.Chain' HistExtend ((run_agent io rt a msg script).requests ++
      [(run_agent io rt a msg script).history]) := by
  constructor
  · intro hne
    rcases script with _ | ⟨out, rest⟩
    · exact absurd ((runLoop_reqs_shape io rt [] [] [] (seed_history a msg)).1 rfl) hne
    · obtain ⟨tl, htl⟩ :=
        (runLoop_reqs_shape io rt (out :: rest) [] [] (seed_history a msg)).2 (by simp)
      have : (run_agent io rt a msg (out :: rest)).requests =
          seed_history a msg :: tl := by
        rw [run_agent, htl]
        simp
      rw [this]
      rfl
  · have hinv : List.Chain' HistExtend ([] ++ [seed_history a msg]) := by
      simp
    exact runLoop_chain io rt script [] [] (seed_history a msg) hinv

/-- Witness for C5 at a two-turn run. -/
theorem C5_witness :
    (run_agent io₀e rt₀ a₀ none [[.reasoning "r"], [.message "done"]]).requests.head? =
        some (seed_history a₀ none) ∧
      List.Chain' HistExtend
        ((run_agent io₀e rt₀ a₀ none [[.reasoning "r"], [.message "done"]]).requests ++
          [(run_agent io₀e rt₀ a₀ none [[.reasoning "r"], [.message "done"]]).history]) :=
  ⟨(C5_full_history_resend io₀e rt₀ a₀ none [[.reasoning "r"], [.message "done"]]).1 (by decide),
    (C5_full_history_resend io₀e rt₀ a₀ none [[.reasoning "r"], [.message "done"]]).2⟩

/-- C6: invoking an agent-as-tool runs the nested engine on a fresh
history seeded only with the nested agent's system prompt and the passed
message (every nested request extends exactly that seed), the invocation
returns the nested run's final text, and the parent's history gains only
the function-call item and its single tool-result entry — nothing from
the nested engine's internal turns. -/
theorem C6_delegation (io : EngineIO) (base : String → List (String × PyVal) → PyVal)
    (agents : String → Option (Agent × List (List OutputItem)))
    (parent : Agent) (pmsg : Option String)
    (nm args cid : String) (kwargs : List (String × PyVal))
    (a : Agent) (ns : List (List OutputItem)) (m t w : String)
    (hag : agents nm = some (a, ns))
    (hargs : io.loads args = some (.obj kwargs))
    (hmsg : pyGet? kwargs "message" = some (.str m))
    (hnested : (run_agent io base a (some m) ns).outcome = .finished t) :
    (∀ r ∈ (run_agent io base a (some m) ns).requests,
        ∃ tl, r = [HistoryEntry.system a.prompt, HistoryEntry.user m] ++ tl)
    ∧ (run_agent io (agent_tool_dispatch io base agents) parent pmsg
        [[.function_call ⟨nm, args, cid⟩], [.message w]]).outcome = .finished w
    ∧ (run_agent io (agent_tool_dispatch io base agents) parent pmsg
        [[.function_call ⟨nm, args, cid⟩], [.message w]]).history =
      seed_history parent pmsg ++
        [HistoryEntry.output (.function_call ⟨nm, args, cid⟩)] ++
        [HistoryEntry.function_call_output cid (io.dumps (.str t))] ++
        [HistoryEntry.output (.message w)] := by
  have hdisp : agent_tool_dispatch io base agents nm kwargs = .str t := by
    simp only [agent_tool_dispatch, hag, hmsg, hnested]
  have hp : processItems io (agent_tool_dispatch io base agents)
      (output_text [.function_call ⟨nm, args, cid⟩])
      (seed_history parent pmsg ++
        [OutputItem.function_call ⟨nm, args, cid⟩].map HistoryEntry.output)
      [] [.function_call ⟨nm, args, cid⟩] =
      ⟨.clsNext,
        seed_history parent pmsg ++
          [OutputItem.function_call ⟨nm, args, cid⟩].map HistoryEntry.output ++
          [.function_call_output cid (io.dumps (.str t))], []⟩ := by
    simp only [processItems, hargs, hdisp]
  have hrun := run_single_next io (agent_tool_dispatch io base agents) parent pmsg
    [.function_call ⟨nm, args, cid⟩] [[.message w]] _ _ hp
  refine ⟨?_, ?_, ?_⟩
  · intro r hr
    rcases runLoop_reqs_extend io base ns [] [] (seed_history a (some m)) r hr with h | ⟨tl, htl⟩
    · cases h
    · exact ⟨tl, htl⟩
  · rw [hrun]
    exact runLoop_message_outcome io (agent_tool_dispatch io base agents) _ _ _ w []
  · rw [hrun, runLoop_message_full]
    simp [List.append_assoc]

/-- Witness for C6 at a concrete `"ping"`/`"pong"` delegation. -/
theorem C6_witness :
    agents₀ "helper_tool" = some (aNest, [[.message "pong"]]) ∧
    ioDel.loads delArgs = some (.obj [("message", .str "ping")]) ∧
    pyGet? [("message", PyVal.str "ping")] "message" = some (.str "ping") ∧
    (run_agent ioDel rt₀ aNest (some "ping") [[.message "pong"]]).outcome = .finished "pong" ∧
    ((run_agent ioDel (agent_tool_dispatch ioDel rt₀ agents₀) a₀ none
        [[.function_call ⟨"helper_tool", delArgs, "c7"⟩], [.message "done"]]).outcome =
          .finished "done" ∧
      (run_agent ioDel (agent_tool_dispatch ioDel rt₀ agents₀) a₀ none
        [[.function_call ⟨"helper_tool", delArgs, "c7"⟩], [.message "done"]]).history =
      seed_history a₀ none ++
        [HistoryEntry.output (.function_call ⟨"helper_tool", delArgs, "c7"⟩)] ++
        [HistoryEntry.function_call_output "c7" (ioDel.dumps (.str "pong"))] ++
        [HistoryEntry.output (.message "done")]) :=
  ⟨rfl, rfl, rfl, by decide,
    (C6_delegation ioDel rt₀ agents₀ a₀ none "helper_tool" delArgs "c7"
      [("message", .str "ping")] aNest [[.message "pong"]] "ping" "pong" "done"
      rfl rfl rfl (by decide)).2⟩

/-- C8: an output item of an unrecognized kind is never fatal — deleting
or inserting it anywhere in any response leaves the run's outcome
unchanged, the loop keeps processing subsequent items and turns — and the
item is reported to the error channel (stderr log) when control reaches
it. -/
theorem C8_unrecognized_items :
    (∀ (io : EngineIO) (rt : String → List (String × PyVal) → PyVal)
        (a : Agent) (msg : Option String) (s1 : List (List OutputItem))
        (o1 : List OutputItem) (k : String) (o2 : List OutputItem)
        (s2 : List (List OutputItem)),
        (run_agent io rt a msg (s1 ++ (o1 ++ .other k :: o2) :: s2)).outcome =
          (run_agent io rt a msg (s1 ++ (o1 ++ o2) :: s2)).outcome)
    ∧ (∀ (io : EngineIO) (rt : String → List (String × PyVal) → PyVal)
        (t : String) (h : List HistoryEntry) (l o1 : List OutputItem)
        (k : String) (o2 : List OutputItem),
        (processItems io rt t h l o1).cls = .clsNext →
        .other k ∈ (processItems io rt t h l (o1 ++ .other k :: o2)).errLog) :=
  ⟨fun io rt a msg s1 o1 k o2 s2 => runLoop_other_outcome io rt s1 [] [] _ o1 k o2 s2,
    fun io rt t h l o1 k o2 hc => processItems_other_logged io rt t o1 h l k o2 hc⟩

/-- Witness for C8: an unrecognized `"mystery"` item after a reasoning
item is logged and the pass continues. -/
theorem C8_witness :
    (processItems io₀e rt₀ "" (seed_history a₀ none) [] [.reasoning "r"]).cls = .clsNext ∧
    .other "mystery" ∈ (processItems io₀e rt₀ "" (seed_history a₀ none) []
      ([.reasoning "r"] ++ .other "mystery" :: [])).errLog :=
  ⟨by decide,
    C8_unrecognized_items.2 io₀e rt₀ "" (seed_history a₀ none) [] [.reasoning "r"] "mystery" []
      (by decide)⟩

/-! ### Background-job lemmas (claim C4) -/

theorem bodyDoneCount_cons_start (evs : List JobEvent) :
    bodyDoneCount (JobEvent.start :: evs) = bodyDoneCount evs := by
  simp [bodyDoneCount, List.filter_cons]

theorem bodyDoneCount_cons_deliver (c : Nat) (v : String) (evs : List JobEvent) :
    bodyDoneCount (JobEvent.deliver c v :: evs) = bodyDoneCount evs := by
  simp [bodyDoneCount, List.filter_cons]

theorem bodyDoneCount_cons_failed (e : String) (evs : List JobEvent) :
    bodyDoneCount (JobEvent.bodyFailed e :: evs) = bodyDoneCount evs := by
  simp [bodyDoneCount, List.filter_cons]

theorem bodyDoneCount_cons_done (r : String) (evs : List JobEvent) :
    bodyDoneCount (JobEvent.bodyDone r :: evs) = bodyDoneCount evs + 1 := by
  simp [bodyDoneCount, List.filter_cons]

/-- From `done r` the handle only ever re-delivers `r`: the state never
changes, the body never runs again, and every delivered value is the
memoized `r`. -/
theorem runJob_done_inv (r : String) : ∀ (evs : List JobEvent) (s : JobState),
    runJob (.done r) evs = some s →
    s = .done r ∧ bodyDoneCount evs = 0 ∧ ∀ c v, JobEvent.deliver c v ∈ evs → v = r := by
  intro evs
  induction evs with
  | nil =>
    intro s hs
    simp only [runJob, Option.some.injEq] at hs
    exact ⟨hs.symm, rfl, by simp⟩
  | cons e evs' ih =>
    intro s hs
    cases e with
    | start => simp [runJob, jobStep] at hs
    | bodyDone r' => simp [runJob, jobStep] at hs
    | bodyFailed e' => simp [runJob, jobStep] at hs
    | deliver c v =>
      by_cases hv : v = r
      · have hs' : runJob (.done r) evs' = some s := by
          simpa [runJob, jobStep, hv] using hs
        obtain ⟨h1, h2, h3⟩ := ih s hs'
        refine ⟨h1, by rw [bodyDoneCount_cons_deliver]; exact h2, ?_⟩
        intro c' v' hmem
        rcases List.mem_cons.mp hmem with heq | hmem'
        · injection heq with hc hv2
          exact hv2.trans hv
        · exact h3 c' v' hmem'
      · simp [runJob, jobStep, hv] at hs

/-- A failed handle accepts no further event at all. -/
theorem runJob_failed_inv (e : String) : ∀ (evs : List JobEvent) (s : JobState),
    runJob (.failed e) evs = some s → s = .failed e ∧ evs = [] := by
  intro evs
  cases evs with
  | nil =>
    intro s hs
    simp only [runJob, Option.some.injEq] at hs
    exact ⟨hs.symm, rfl⟩
  | cons ev evs' =>
    intro s hs
    cases ev <;> simp [runJob, jobStep] at hs

/-- From `running`: the body completes at most once, exactly once when
the final state is `done`, and every delivered value equals the value the
body completed with. -/
theorem runJob_running_inv : ∀ (evs : List JobEvent) (s : JobState),
    runJob .running evs = some s →
    bodyDoneCount evs ≤ 1 ∧ (∀ r, s = .done r → bodyDoneCount evs = 1) ∧
      (∀ c v r', JobEvent.deliver c v ∈ evs → JobEvent.bodyDone r' ∈ evs → v = r') := by
  intro evs
  cases evs with
  | nil =>
    intro s hs
    simp only [runJob, Option.some.injEq] at hs
    refine ⟨by simp [bodyDoneCount], ?_, by simp⟩
    intro r hr
    rw [← hs] at hr
    exact JobState.noConfusion hr
  | cons e evs' =>
    intro s hs
    cases e with
    | start => simp [runJob, jobStep] at hs
    | deliver c v => simp [runJob, jobStep] at hs
    | bodyDone r =>
      have hs' : runJob (.done r) evs' = some s := by
        simpa [runJob, jobStep] using hs
      obtain ⟨h1, h2, h3⟩ := runJob_done_inv r evs' s hs'
      have hcnt : bodyDoneCount (JobEvent.bodyDone r :: evs') = 1 := by
        rw [bodyDoneCount_cons_done, h2]
      refine ⟨le_of_eq hcnt, fun _ _ => hcnt, ?_⟩
      intro c v r' hdel hbd
      have hdel' : JobEvent.deliver c v ∈ evs' := by
        rcases List.mem_cons.mp hdel with heq | h
        · exact absurd heq (by simp)
        · exact h
      have hv := h3 c v hdel'
      have hr' : r' = r := by
        rcases List.mem_cons.mp hbd with heq | h
        · injection heq
        · exfalso
          have : (evs'.filter fun e =>
              match e with
              | JobEvent.bodyDone _ => true
              | _ => false) = [] := List.length_eq_zero.mp h2
          have := List.filter_eq_nil.mp this _ h
          simp at this
      rw [hv, hr']
    | bodyFailed e' =>
      have hs' : runJob (.failed e') evs' = some s := by
        simpa [runJob, jobStep] using hs
      obtain ⟨h1, h2⟩ := runJob_failed_inv e' evs' s hs'
      subst h2
      refine ⟨by simp [bodyDoneCount], ?_, by simp⟩
      intro r hr
      rw [h1] at hr
      exact JobState.noConfusion hr

/-- The same invariants from the initial `pending` state. -/
theorem runJob_pending_inv : ∀ (evs : List JobEvent) (s : JobState),
    runJob .pending evs = some s →
    bodyDoneCount evs ≤ 1 ∧ (∀ r, s = .done r → bodyDoneCount evs = 1) ∧
      (∀ c v r', JobEvent.deliver c v ∈ evs → JobEvent.bodyDone r' ∈ evs → v = r') := by
  intro evs
  cases evs with
  | nil =>
    intro s hs
    simp only [runJob, Option.some.injEq] at hs
    refine ⟨by simp [bodyDoneCount], ?_, by simp⟩
    intro r hr
    rw [← hs] at hr
    exact JobState.noConfusion hr
  | cons e evs' =>
    intro s hs
    cases e with
    | bodyDone r => simp [runJob, jobStep] at hs
    | bodyFailed e' => simp [runJob, jobStep] at hs
    | deliver c v => simp [runJob, jobStep] at hs
    | start =>
      have hs' : runJob .running evs' = some s := by
        simpa [runJob, jobStep] using hs
      obtain ⟨h1, h2, h3⟩ := runJob_running_inv evs' s hs'
      refine ⟨by rw [bodyDoneCount_cons_start]; exact h1, ?_, ?_⟩
      · intro r hr
        rw [bodyDoneCount_cons_start]
        exact h2 r hr
      · intro c v r' hdel hbd
        have hdel' : JobEvent.deliver c v ∈ evs' := by
          rcases List.mem_cons.mp hdel with heq | h
          · exact absurd heq (by simp)
          · exact h
        have hbd' : JobEvent.bodyDone r' ∈ evs' := by
          rcases List.mem_cons.mp hbd with heq | h
          · exact absurd heq (by simp)
          · exact h
        exact h3 c v r' hdel' hbd'

/-- C4: (spec-modelled job handle) the transcription job is created
exactly once in `async_main`, before the root agent runs; in every legal
trace of the shared handle the job body completes at most once (exactly
once when the final state is `done`), every waiter — concurrent or late —
is delivered the single memoized value the body completed with, and the
`done`/`failed` states admit no further state change. -/
theorem C4_background_job :
    (∀ (evs : List JobEvent) (s : JobState), runJob .pending evs = some s →
        bodyDoneCount evs ≤ 1)
    ∧ (∀ (evs : List JobEvent) (r : String), runJob .pending evs = some (.done r) →
        bodyDoneCount evs = 1)
    ∧ (∀ (evs : List JobEvent) (s : JobState) (c : Nat) (v r' : String),
        runJob .pending evs = some s →
        JobEvent.deliver c v ∈ evs → JobEvent.bodyDone r' ∈ evs → v = r')
    ∧ (∀ (r : String) (ev : JobEvent) (s : JobState),
        jobStep (.done r) ev = some s → s = .done r)
    ∧ (∀ (e : String) (ev : JobEvent) (s : JobState),
        jobStep (.failed e) ev = some s → False)
    ∧ ((async_main_steps.filter fun st => st == SetupStep.create_transcription_task).length = 1
        ∧ async_main_steps.indexOf SetupStep.create_transcription_task <
            async_main_steps.indexOf SetupStep.run_root_agent) := by
  refine ⟨?_, ?_, ?_, ?_, ?_, by decide⟩
  · intro evs s hs
    exact (runJob_pending_inv evs s hs).1
  · intro evs r hs
    exact (runJob_pending_inv evs _ hs).2.1 r rfl
  · intro evs s c v r' hs hdel hbd
    exact (runJob_pending_inv evs s hs).2.2 c v r' hdel hbd
  · intro r ev s hstep
    cases ev with
    | deliver c v =>
      by_cases hv : v = r
      · subst hv
        have hred : jobStep (JobState.done v) (JobEvent.deliver c v) = some (JobState.done v) := by
          simp [jobStep]
        rw [hred, Option.some.injEq] at hstep
        exact hstep.symm
      · simp [jobStep, hv] at hstep
    | start => simp [jobStep] at hstep
    | bodyDone r' => simp [jobStep] at hstep
    | bodyFailed e' => simp [jobStep] at hstep
  · intro e ev s hstep
    cases ev <;> simp [jobStep] at hstep

/-- Witness for C4 at a concrete two-waiter trace. -/
theorem C4_witness :
    runJob .pending evs₀c = some (.done "t") ∧
    bodyDoneCount evs₀c = 1 ∧
    ("t" : String) = "t" :=
  ⟨rfl, C4_background_job.2.1 evs₀c "t" rfl,
    C4_background_job.2.2.1 evs₀c (.done "t") 0 "t" "t" rfl (by decide) (by decide)⟩

end ATrans
